import Mathlib

/-!
# Verification of the mercado_laboral_tech salary pipeline

Shallow embedding of the ETL schema-unification step (`src/etl.py`), the
feature-engineering and training routine (`src/model_salary.py`) and the
dashboard's inference-time input builder (`src/dashboards/app.py`).

Modelling conventions:
* pandas cells are `Val`: a string, a rational number (Python floats are
  modelled as exact rationals), a parsed datetime (identified by a canonical
  string), a bool, a list of strings, or null (`None`/`NaN`/`NaT`).
* a DataFrame is a `Table`: an ordered association list of named columns,
  all of the same length; row order is positional.
* `re.search`-style regex matching and the `pd.to_datetime` parser are
  library black boxes; they enter the embedding as explicit function
  parameters (`matcher`, `pdate`, `yearsExtract`).  No claim below depends
  on the behaviour of a particular regex.
* `np.random.randint` is modelled by an explicit stream `rng : Nat → Nat`
  consumed one draw per imputed row; a fixed seed corresponds to a fixed
  stream.
-/

set_option maxRecDepth 100000
set_option maxHeartbeats 1000000

namespace MercadoTech

/-- A pandas cell value. `vNull` stands for `None`, `NaN` and `NaT` alike. -/
inductive Val where
  | vStr (s : String)
  | vNum (q : ℚ)
  | vDate (d : String)
  | vBool (b : Bool)
  | vList (ts : List String)
  | vNull
deriving DecidableEq, Repr

abbrev Col := List Val

/-- A DataFrame: ordered association list of named columns. -/
abbrev Table := List (String × Col)

def colNames (t : Table) : List String := t.map Prod.fst

/-- `df[n]`: the first column carrying name `n`. -/
def lookupCol (n : String) : Table → Option Col
  | [] => none
  | p :: ps => if p.1 == n then some p.2 else lookupCol n ps

def hasCol (n : String) (t : Table) : Bool := t.any (fun p => p.1 == n)

/-- Number of rows (length of the first column; `0` for a column-less table). -/
def rowCount (t : Table) : Nat := ((t.head?).map (fun p => p.2.length)).getD 0

/-- Overwrite every column named `n` in place. -/
def overwriteCol (n : String) (c : Col) : Table → Table
  | [] => []
  | p :: ps => (if p.1 == n then (p.1, c) else p) :: overwriteCol n c ps

/-- `df[n] = c`: overwrite the column in place when it exists, append it otherwise. -/
def setCol (n : String) (c : Col) (t : Table) : Table :=
  if hasCol n t then overwriteCol n c t else t ++ [(n, c)]

/-- Apply `f` to the column named `n` (in place). -/
def updateCol (n : String) (f : Col → Col) : Table → Table
  | [] => []
  | p :: ps => (if p.1 == n then (p.1, f p.2) else p) :: updateCol n f ps

/-- `df.rename(columns={old: new})` for a single column, keeping its position. -/
def renameColTo (old new : String) : Table → Table
  | [] => []
  | p :: ps => (if p.1 == old then (new, p.2) else p) :: renameColTo old new ps

/-- Keep rows whose mask entry is `true` (used for `df.dropna(subset=[...])`). -/
def applyMask : List Bool → Col → Col
  | b :: bs, v :: vs => if b then v :: applyMask bs vs else applyMask bs vs
  | _, _ => []

def filterRowsBy (mask : List Bool) : Table → Table
  | [] => []
  | p :: ps => (p.1, applyMask mask p.2) :: filterRowsBy mask ps

/-- First occurrences, in order (Python `dict` insertion-order dedup). -/
def dedupFirst {α : Type} [BEq α] : List α → List α → List α
  | [], acc => acc.reverse
  | x :: xs, acc => if acc.contains x then dedupFirst xs acc else dedupFirst xs (x :: acc)

def dedupF {α : Type} [BEq α] (l : List α) : List α := dedupFirst l []

/-- Code-point lexicographic `≤` on character lists (Python string order). -/
def charListLe : List Char → List Char → Bool
  | [], _ => true
  | _ :: _, [] => false
  | a :: as, b :: bs =>
      if a.toNat < b.toNat then true
      else if b.toNat < a.toNat then false
      else charListLe as bs

def strLe (a b : String) : Bool := charListLe a.toList b.toList

/-- Ascending sort of names (`groupby` sorts its keys). -/
def sortStr (l : List String) : List String :=
  l.insertionSort (fun a b => strLe a b = true)

/-! ## Python string primitives (modelled on `List Char`) -/

/-- Python `str.strip()` (whitespace only). -/
def stripChars (cs : List Char) : List Char :=
  ((cs.dropWhile Char.isWhitespace).reverse.dropWhile Char.isWhitespace).reverse

def pyStrip (s : String) : String := String.mk (stripChars s.toList)

def pyLower (s : String) : String := String.mk (s.toList.map Char.toLower)

/-- Python `str.split(sep)` for a one-character separator: keeps empty pieces. -/
def splitCharAux (c : Char) : List Char → List Char → List (List Char)
  | [], acc => [acc.reverse]
  | x :: xs, acc =>
      if x = c then acc.reverse :: splitCharAux c xs [] else splitCharAux c xs (x :: acc)

def pySplit (c : Char) (s : String) : List String :=
  (splitCharAux c s.toList []).map String.mk

/-- Python `str.startswith(p)`. -/
def pyStartsWith (s p : String) : Bool := s.toList.take p.toList.length == p.toList

/-- The character class `[a-zA-Z0-9_]` of `re.sub(r'[^a-zA-Z0-9_]', '', ·)`. -/
def isWordChar (c : Char) : Bool :=
  (('a' ≤ c ∧ c ≤ 'z') ∨ ('A' ≤ c ∧ c ≤ 'Z') ∨ ('0' ≤ c ∧ c ≤ '9') ∨ c = '_' : Prop) |> decide

/-! ### Kernel-friendly exact rational arithmetic

The `Rat` operations bundled with the library are `@[irreducible]`, which
blocks `decide`-style evaluation, so the embedding computes with the
following `mkRat`-based implementations of the same exact operations.  The
bridge lemmas `qAdd_eq`, `qNeg_eq`, `qMul_eq`, `qInv_eq`, `qDiv_eq`,
`qPowN_eq` and `qZpow_eq` below prove them equal to the standard `ℚ`
operations, so theorem statements can use ordinary notation. -/

def qAdd (a b : ℚ) : ℚ := mkRat (a.num * b.den + b.num * a.den) (a.den * b.den)

def qNeg (a : ℚ) : ℚ := mkRat (-a.num) a.den

def qMul (a b : ℚ) : ℚ := mkRat (a.num * b.num) (a.den * b.den)

def qInv (a : ℚ) : ℚ :=
  if 0 ≤ a.num then mkRat (a.den : Int) a.num.natAbs
  else mkRat (-(a.den : Int)) a.num.natAbs

def qDiv (a b : ℚ) : ℚ := qMul a (qInv b)

def qPowN (a : ℚ) : Nat → ℚ
  | 0 => mkRat 1 1
  | n + 1 => qMul (qPowN a n) a

def qZpow (a : ℚ) : Int → ℚ
  | Int.ofNat n => qPowN a n
  | Int.negSucc n => qInv (qPowN a (n + 1))

theorem qAdd_eq (a b : ℚ) : qAdd a b = a + b := by
  rw [qAdd, Rat.mkRat_eq_divInt]
  conv_rhs =>
    rw [← Rat.num_divInt_den a, ← Rat.num_divInt_den b,
      Rat.divInt_add_divInt _ _ (Int.natCast_ne_zero.mpr a.den_nz)
        (Int.natCast_ne_zero.mpr b.den_nz)]
  congr 1

theorem qNeg_eq (a : ℚ) : qNeg a = -a := by
  rw [qNeg, Rat.mkRat_eq_divInt, ← Rat.neg_divInt, Rat.num_divInt_den]

theorem qMul_eq (a b : ℚ) : qMul a b = a * b := by
  rw [qMul, Rat.mkRat_eq_divInt]
  conv_rhs =>
    rw [← Rat.num_divInt_den a, ← Rat.num_divInt_den b, Rat.divInt_mul_divInt']
  congr 1

theorem qInv_eq (a : ℚ) : qInv a = a⁻¹ := by
  rw [qInv, Rat.inv_def']
  by_cases h : 0 ≤ a.num
  · rw [if_pos h, Rat.mkRat_eq_divInt, Int.natAbs_of_nonneg h]
  · rw [if_neg h, Rat.mkRat_eq_divInt]
    have habs : (a.num.natAbs : Int) = -a.num :=
      Int.ofNat_natAbs_of_nonpos (le_of_lt (lt_of_not_le h))
    rw [habs]
    exact Rat.neg_divInt_neg _ _

theorem qDiv_eq (a b : ℚ) : qDiv a b = a / b := by
  rw [qDiv, qMul_eq, qInv_eq, div_eq_mul_inv]

theorem qPowN_eq (a : ℚ) : ∀ n : Nat, qPowN a n = a ^ n
  | 0 => by simp [qPowN]
  | n + 1 => by rw [qPowN, qMul_eq, qPowN_eq a n, pow_succ]

theorem qZpow_eq (a : ℚ) : ∀ e : Int, qZpow a e = a ^ e
  | Int.ofNat n => by
      rw [qZpow, qPowN_eq]
      exact (zpow_natCast a n).symm
  | Int.negSucc n => by
      rw [qZpow, qInv_eq, qPowN_eq]
      exact (zpow_negSucc a n).symm

def digitsToNat (cs : List Char) : Nat :=
  cs.foldl (fun n c => 10 * n + (c.toNat - '0'.toNat)) 0

def parseSign : List Char → (Bool × List Char)
  | '-' :: cs => (true, cs)
  | '+' :: cs => (false, cs)
  | cs => (false, cs)

/-- Exponent suffix of a float literal; `some 0` when absent, `none` on junk. -/
def parseExpPart : List Char → Option Int
  | [] => some 0
  | c :: cs =>
      if c = 'e' ∨ c = 'E' then
        let (neg, cs') := parseSign cs
        let ds := cs'.takeWhile Char.isDigit
        let rest := cs'.dropWhile Char.isDigit
        if ds.isEmpty ∨ ¬ rest.isEmpty then none
        else some (if neg then -(digitsToNat ds : Int) else (digitsToNat ds : Int))
      else none

/-- Model of Python `float(s)` on sign/decimal/exponent literals (with the
surrounding whitespace strip `float` performs).  The `inf`/`nan` words and
PEP-515 underscore forms lie outside the modelled fragment. -/
def pyFloat? (s : String) : Option ℚ :=
  let cs := stripChars s.toList
  let (neg, cs) := parseSign cs
  let ip := cs.takeWhile Char.isDigit
  let cs := cs.dropWhile Char.isDigit
  let (fp, cs) :=
    match cs with
    | '.' :: cs2 => (cs2.takeWhile Char.isDigit, cs2.dropWhile Char.isDigit)
    | _ => (([] : List Char), cs)
  match parseExpPart cs with
  | none => none
  | some e =>
      if ip.isEmpty ∧ fp.isEmpty then none
      else
        let mant : ℚ := qAdd (mkRat (digitsToNat ip) 1) (mkRat (digitsToNat fp) (10 ^ fp.length))
        let v : ℚ := qMul mant (qZpow (mkRat 10 1) e)
        some (if neg then qNeg v else v)

/-- Cellwise `pd.to_numeric(·, errors='coerce')`. -/
def toNumericVal : Val → Val
  | Val.vNum q => Val.vNum q
  | Val.vStr s => match pyFloat? s with | some q => Val.vNum q | none => Val.vNull
  | Val.vBool b => Val.vNum (if b then mkRat 1 1 else mkRat 0 1)
  | _ => Val.vNull

/-! ## `clean_salary` (src/etl.py lines 178-199) -/

/-- `salary_value.replace('$','').replace(',','').replace('€','').strip()`. -/
def removeCurrencySymbols (s : String) : String :=
  pyStrip (String.mk (s.toList.filter (fun c => decide (c ≠ '$' ∧ c ≠ ',' ∧ c ≠ '€'))))

/-- Shallow embedding of `clean_salary`: non-strings pass through; a cleaned
string containing `-` is split into two endpoints whose mean is returned;
otherwise it is parsed as a single number; parse failure yields null (the
`ValueError`/`IndexError` handlers). -/
def clean_salary : Val → Val
  | Val.vStr s =>
      let t := removeCurrencySymbols s
      if t.toList.contains '-' then
        match pySplit '-' t with
        | p0 :: p1 :: _ =>
            match pyFloat? (pyStrip p0), pyFloat? (pyStrip p1) with
            | some low, some high => Val.vNum (qDiv (qAdd low high) (mkRat 2 1))
            | _, _ => Val.vNull
        | _ => Val.vNull
      else
        match pyFloat? t with
        | some q => Val.vNum q
        | none => Val.vNull
  | v => v

/-! ## Schema unification (`transform_job_data`, src/etl.py lines 134-250) -/

/-- The static synonym → canonical rename mapping (src/etl.py lines 151-159). -/
def columnMapping : List (String × String) :=
  [("title", "puesto"), ("titulo", "puesto"), ("company", "empresa"),
   ("location", "ubicacion"), ("description", "descripcion"),
   ("redirect_url", "url_oferta"), ("url", "url_oferta")]

def renameName (n : String) : String :=
  match columnMapping.find? (fun p => p.1 == n) with
  | some p => p.2
  | none => n

/-- `df.rename(columns=column_mapping)`: may create duplicate column names. -/
def renameColumns (t : Table) : Table := t.map (fun p => (renameName p.1, p.2))

/-- Row-wise first non-null of two cells (`groupby(level=0).first()`). -/
def combine2 : Col → Col → Col
  | [], _ => []
  | v :: vs, [] => v :: vs
  | v :: vs, w :: ws => (if v = Val.vNull then w else v) :: combine2 vs ws

def combineAll : List Col → Col
  | [] => []
  | c :: cs => cs.foldl combine2 c

def colsNamed (n : String) (t : Table) : List Col :=
  (t.filter (fun p => p.1 == n)).map Prod.snd

/-- `df.T.groupby(level=0).first().T`: one column per distinct name (keys
sorted ascending, as `groupby` sorts), holding the row-wise first non-null
value across the same-named columns in their original order. -/
def mergeDupCols (t : Table) : Table :=
  (sortStr (dedupF (colNames t))).map (fun n => (n, combineAll (colsNamed n t)))

/-- Cellwise `pd.to_datetime(·, errors='coerce')`; the datetime-string parser
`pdate` is a library black box passed in as a parameter.  Parsed datetimes are
fixed points; unparseable cells coerce to null. -/
def parseDateVal (pdate : String → Option String) : Val → Val
  | Val.vDate d => Val.vDate d
  | Val.vStr s => match pdate s with | some d => Val.vDate d | none => Val.vNull
  | Val.vNum q => Val.vDate ("epoch:" ++ toString q)
  | _ => Val.vNull

/-- src/etl.py lines 170-175: coerce `created_at`, else derive it from
`fecha_publicacion`. -/
def dateStep (pdate : String → Option String) (t : Table) : Table :=
  if hasCol "created_at" t then
    updateCol "created_at" (List.map (parseDateVal pdate)) t
  else if hasCol "fecha_publicacion" t then
    let t' := updateCol "fecha_publicacion" (List.map (parseDateVal pdate)) t
    setCol "created_at" ((lookupCol "fecha_publicacion" t').getD []) t'
  else t

/-- src/etl.py lines 201-206: first of `salario`, `salary`, `salario_promedio`
present as a column (presence only — no non-null requirement here). -/
def findSalaryCol (t : Table) : Option String :=
  ["salario", "salary", "salario_promedio"].find? (fun n => hasCol n t)

/-- src/etl.py lines 208-213: clean the detected salary column, rename it to
`salary`, and coerce it numeric. -/
def salaryStep (t : Table) : Table :=
  match findSalaryCol t with
  | none => t
  | some n =>
      let t' := updateCol n (List.map clean_salary) t
      let t'' := if n == "salary" then t' else renameColTo n "salary" t'
      updateCol "salary" (List.map toNumericVal) t''

/-- `df[['salario_min','salario_max']].mean(axis=1)` for one row (skips NA). -/
def pyMean2 : Val → Val → Val
  | Val.vNum a, Val.vNum b => Val.vNum (qDiv (qAdd a b) (mkRat 2 1))
  | Val.vNum a, _ => Val.vNum a
  | _, Val.vNum b => Val.vNum b
  | _, _ => Val.vNull

/-- src/etl.py lines 222-231: rows where both bounds are null get the same
random draw `np.random.randint(27000, 110001)` in both; the stream `rng` is
consumed one draw per imputed row, in row order (`k` counts draws so far). -/
def imputePairs (rng : Nat → Nat) (k : Nat) : Col → Col → List (Val × Val)
  | a :: as, b :: bs =>
      if a = Val.vNull ∧ b = Val.vNull then
        let v : ℚ := mkRat ((27000 + rng k % 83001 : Nat) : Int) 1
        (Val.vNum v, Val.vNum v) :: imputePairs rng (k + 1) as bs
      else (a, b) :: imputePairs rng k as bs
  | _, _ => []

/-- src/etl.py lines 216-237: coerce the min/max pair numeric, impute rows
where both are null, then (re)compute `salario_promedio` as their row mean. -/
def salaryMinMaxStep (rng : Nat → Nat) (t : Table) : Table :=
  if hasCol "salario_min" t ∧ hasCol "salario_max" t then
    let t1 := updateCol "salario_min" (List.map toNumericVal) t
    let t2 := updateCol "salario_max" (List.map toNumericVal) t1
    let mn := (lookupCol "salario_min" t2).getD []
    let mx := (lookupCol "salario_max" t2).getD []
    let pairs := imputePairs rng 0 mn mx
    let t3 := setCol "salario_min" (pairs.map Prod.fst) t2
    let t4 := setCol "salario_max" (pairs.map Prod.snd) t3
    setCol "salario_promedio" (pairs.map (fun p => pyMean2 p.1 p.2)) t4
  else t

/-- src/etl.py lines 240-248: technology-presence columns, built only when the
`technology` column's first non-null cell is a Python list.  Python iterates a
`set` in unspecified order; the model fixes first-occurrence order. -/
def techStep (t : Table) : Table :=
  match lookupCol "technology" t with
  | none => t
  | some c =>
      if c.all (· == Val.vNull) then t
      else
        match (c.filter (fun v => !(v == Val.vNull))).head? with
        | some (Val.vList _) =>
            let techs := dedupF (c.foldr (fun v acc =>
              match v with | Val.vList ts => ts ++ acc | _ => acc) [])
            techs.foldl (fun t' tech =>
              setCol ("has_" ++ pyLower tech)
                (c.map (fun v =>
                  match v with
                  | Val.vList ts => Val.vBool (ts.contains tech)
                  | _ => Val.vBool false)) t') t
        | _ => t

/-- Shallow embedding of `transform_job_data` (src/etl.py lines 134-250):
rename synonyms, merge duplicate columns first-non-null-wins, parse dates,
clean/standardise the salary column, impute and average the min/max pair,
and expand list-valued technology columns. -/
def transform_job_data (pdate : String → Option String) (rng : Nat → Nat)
    (t : Table) : Table :=
  let df := mergeDupCols (renameColumns t)
  let df := dateStep pdate df
  let df := salaryStep df
  let df := salaryMinMaxStep rng df
  techStep df

/-! ## Column resolvers (src/model_salary.py lines 41-65) -/

/-- `col in df.columns and df[col].notna().any()`. -/
def colHasData (t : Table) (n : String) : Bool :=
  match lookupCol n t with
  | some c => c.any (fun v => !(v == Val.vNull))
  | none => false

def determine_salary_column (t : Table) : Option String :=
  ["salario_promedio", "salary", "salario"].find? (colHasData t)

def determine_location_column (t : Table) : Option String :=
  ["ubicacion", "location"].find? (colHasData t)

def determine_contract_column (t : Table) : Option String :=
  ["tipo_contrato", "jornada", "contract_type"].find? (colHasData t)

def determine_title_column (t : Table) : Option String :=
  ["titulo", "job_title"].find? (colHasData t)

/-! ## Feature engineering (`preprocess_data`, src/model_salary.py lines 71-229)

`matcher pat s` abstracts `re.search(pat, s, re.IGNORECASE) is not None`;
`yearsExtract s` abstracts the `str.extract(exp_pattern)` + `to_numeric`
pipeline for the required-years-of-experience regex.  The pattern strings are
carried verbatim from the source but are opaque to the model. -/

/-- `data[col].str.contains(pat, case=False, na=False).astype(int)`. -/
def flagColFrom (matcher : String → String → Bool) (pat : String) (src : Col) : Col :=
  src.map (fun v =>
    match v with
    | Val.vStr s => Val.vNum (if matcher pat s then mkRat 1 1 else mkRat 0 1)
    | _ => Val.vNum (mkRat 0 1))

/-- Seniority and role-type flags derived from the title column
(src/model_salary.py lines 89-110), in creation order. -/
def seniorityRoleSpecs : List (String × String) :=
  [("seniority_senior", "senior|sr\\.|lead\\b|principal|architect|head|staff|director"),
   ("seniority_mid", "\\bmid|\\bmiddle|\\bII\\b|\\b2\\b"),
   ("seniority_junior", "junior|jr\\.|intern\\b|trainee|graduate|entry|associate"),
   ("role_frontend", "front|frontend|front-end|ui|react|angular|vue"),
   ("role_backend", "back|backend|back-end|api|node|django|flask|spring"),
   ("role_fullstack", "full|fullstack|full-stack|full stack"),
   ("role_data", "data|analytic|business intelligence|bi|analyst"),
   ("role_devops", "devops|sre|reliability|cloud|aws|azure|platform"),
   ("role_manager", "manager|director|head|lead|chief|cto")]

/-- Curated technology vocabulary matched against the description
(src/model_salary.py lines 145-180), in source order. -/
def techPatternSpecs : List (String × String) :=
  [("tech_python", "python\\b"), ("tech_javascript", "javascript|js\\b"),
   ("tech_typescript", "typescript|ts\\b"), ("tech_java", "\\bjava\\b"),
   ("tech_csharp", "c#|c-sharp|csharp"), ("tech_cpp", "c\\+\\+|cpp"),
   ("tech_php", "php"), ("tech_go", "\\bgo\\b|golang"), ("tech_ruby", "ruby"),
   ("tech_swift", "swift"), ("tech_kotlin", "kotlin"), ("tech_rust", "rust"),
   ("tech_react", "react"), ("tech_angular", "angular"), ("tech_vue", "vue"),
   ("tech_node", "node\\.?js"), ("tech_django", "django"), ("tech_flask", "flask"),
   ("tech_spring", "spring"), ("tech_rails", "rails"), ("tech_laravel", "laravel"),
   ("tech_sql", "sql\\b"), ("tech_mysql", "mysql"),
   ("tech_postgresql", "postgres|postgresql"), ("tech_mongodb", "mongo|mongodb"),
   ("tech_aws", "aws|amazon web services"), ("tech_azure", "azure"),
   ("tech_gcp", "gcp|google cloud"), ("tech_docker", "docker"),
   ("tech_kubernetes", "kubernetes|k8s"), ("tech_terraform", "terraform"),
   ("tech_git", "git\\b"), ("tech_jira", "jira"), ("tech_scrum", "scrum|agile")]

def descColCandidates : List String :=
  ["descripcion", "description", "requisitos", "requirements"]

/-- Median of a list of rationals (pandas `Series.median`); callers only use
it on non-empty lists. -/
def medianQ (xs : List ℚ) : ℚ :=
  let s := xs.insertionSort (· ≤ ·)
  let n := s.length
  if n % 2 = 1 then s.getD (n / 2) 0
  else qDiv (qAdd (s.getD (n / 2 - 1) 0) (s.getD (n / 2) 0)) (mkRat 2 1)

/-- One row's comma-separated pieces as `str.get_dummies(sep=',')` sees them
(after `fillna('')`): no trimming, empty pieces kept at this stage. -/
def rawPieces (v : Val) : List String :=
  match v with
  | Val.vStr s => pySplit ',' s
  | Val.vNull => pySplit ',' ""
  | _ => []

/-- The dummy-column names `str.get_dummies(sep=',')` produces: distinct
non-empty raw pieces, sorted ascending. -/
def getDummyTokens (cells : Col) : List String :=
  sortStr ((dedupF ((cells.map rawPieces).flatten)).filter (fun s => !(s == "")))

/-- Indicator column of one raw token. -/
def dummyCol (cells : Col) (tok : String) : List Nat :=
  cells.map (fun v => if (rawPieces v).contains tok then 1 else 0)

/-- `f"skill_{re.sub(r'[^a-zA-Z0-9_]', '', col_stripped.lower())}"`. -/
def normalizeSkillName (colStripped : String) : String :=
  "skill_" ++ String.mk ((pyLower colStripped).toList.filter isWordChar)

/-- Insert-or-add into the `cleaned_cols` dict (Python dicts keep insertion
order; `+=` adds the indicator columns element-wise). -/
def addSkillCol (acc : List (String × List Nat)) (nm : String) (col : List Nat) :
    List (String × List Nat) :=
  if acc.any (fun p => p.1 == nm) then
    acc.map (fun p => if p.1 == nm then (p.1, List.zipWith (· + ·) p.2 col) else p)
  else acc ++ [(nm, col)]

/-- The `tecnologias` → `skill_*` block (src/model_salary.py lines 189-206):
get-dummies on commas, then strip/lower/de-symbol each raw column name and
sum the indicator columns that collide on the same cleaned name. -/
def techSkillColumns (cells : Col) : List (String × List Nat) :=
  (getDummyTokens cells).foldl (fun acc tok =>
    if pyStrip tok == "" then acc
    else addSkillCol acc (normalizeSkillName (pyStrip tok)) (dummyCol cells tok)) []

def cityList : List String :=
  ["madrid", "barcelona", "valencia", "malaga", "sevilla", "bilbao", "zaragoza"]

/-- Shallow embedding of `preprocess_data` (src/model_salary.py lines 71-229).
The dead `all_tech_mentions` binding (line 141) has no effect and is omitted. -/
def preprocess_data (matcher : String → String → Bool)
    (yearsExtract : String → Option ℚ) (data : Table) : Table :=
  let titleCol? := determine_title_column data
  let descCol? := descColCandidates.find? (colHasData data)
  -- 1. seniority and role type from the title
  let data :=
    match titleCol? with
    | some tc =>
        seniorityRoleSpecs.foldl (fun d spec =>
          setCol spec.1 (flagColFrom matcher spec.2 ((lookupCol tc d).getD [])) d) data
    | none => data
  -- 2. information extracted from the description
  let data :=
    match descCol? with
    | some dc =>
        let descCol := (lookupCol dc data).getD []
        let extracted := descCol.map (fun v =>
          match v with
          | Val.vStr s =>
              (match yearsExtract s with | some q => Val.vNum q | none => Val.vNull)
          | _ => Val.vNull)
        let reqYears : Col :=
          if extracted.all (fun v => v == Val.vNull) then
            extracted.map (fun _ => Val.vNum (mkRat 2 1))
          else
            let med := medianQ (extracted.filterMap (fun v =>
              match v with | Val.vNum q => some q | _ => none))
            extracted.map (fun v => if v == Val.vNull then Val.vNum med else v)
        let d := setCol "required_years_exp" reqYears data
        let d := setCol "is_remote"
          (flagColFrom matcher "remot[eo]|teletrabaj[oa]|work from home" descCol) d
        let d := setCol "has_flexibility"
          (flagColFrom matcher "flexi|horario flexible|flexible hours" descCol) d
        let d := setCol "requires_degree"
          (flagColFrom matcher "degree|título|licenciatura|grado|ingenier[íi]a|universidad" descCol) d
        techPatternSpecs.foldl (fun d' spec =>
          setCol spec.1 (flagColFrom matcher spec.2 descCol) d') d
    | none => data
  -- 3. one-hot skills from the `tecnologias` column
  let data :=
    if hasCol "tecnologias" data then
      let cells := (lookupCol "tecnologias" data).getD []
      let skills := techSkillColumns cells
      if skills.isEmpty then data
      else data ++ skills.map (fun p => (p.1, p.2.map (fun k => Val.vNum (mkRat (k : Int) 1))))
    else data
  -- 4. location features
  match determine_location_column data with
  | some lc =>
      let locCol := (lookupCol lc data).getD []
      let d := cityList.foldl (fun d' city =>
        setCol ("loc_" ++ city) (flagColFrom matcher city locCol) d') data
      let d := setCol "is_capital" (flagColFrom matcher "madrid" locCol) d
      let d := setCol "is_remote_location"
        (flagColFrom matcher "remot[eo]|teletrabajo|trabajo a distancia" locCol) d
      setCol "is_international"
        (flagColFrom matcher "internacional|international|europe|global" locCol) d
  | none => data

/-! ## Training routine (`train_salary_model`, src/model_salary.py lines 235-485)

The sklearn fit/search/evaluation between the feature selection and the
`joblib.dump` call is an external-library computation that does not touch the
artifact's structural metadata; the embedding records the metadata exactly as
the source assembles it and uses `Except.ok` for "the artifact is written"
and `Except.error` for the early-return diagnostics. -/

/-- The persisted metadata bundle (the `metadata` dict of lines 462-482),
restricted to its structural fields; `df` is the cleaned training table the
split consumes. -/
structure TrainArtifact where
  feature_cols : List String
  categorical_features : List String
  numerical_features : List String
  skill_columns : List String
  tech_columns : List String
  location_col : Option String
  contract_col : Option String
  title_col : Option String
  salary_col : String
  df : Table
deriving DecidableEq, Repr

/-- Line 271: `[col for col in [title_col, location_col, contract_col] if col]`. -/
def trainCategorical (df0 : Table) : List String :=
  [determine_title_column df0, determine_location_column df0,
   determine_contract_column df0].filterMap id

/-- Line 272: skill/seniority columns, the numeric half of `feature_cols`. -/
def trainNumerical1 (df : Table) : List String :=
  (colNames df).filter (fun c => pyStartsWith c "skill_" || pyStartsWith c "seniority_")

/-- Lines 294-322: the *recomputed* `numerical_features` that ends up in the
persisted metadata (pattern families, `required_years_exp`, the boolean
flags, then the `loc_*` features), written as the concatenation the `extend`
loop builds. -/
def trainNumerical2 (df : Table) : List String :=
  ((colNames df).filter (fun c => pyStartsWith c "skill_"))
    ++ ((colNames df).filter (fun c => pyStartsWith c "seniority_"))
    ++ ((colNames df).filter (fun c => pyStartsWith c "role_"))
    ++ ((colNames df).filter (fun c => pyStartsWith c "tech_"))
    ++ (if hasCol "required_years_exp" df then ["required_years_exp"] else [])
    ++ (["is_remote", "has_flexibility", "requires_degree", "is_remote_location",
         "is_capital", "is_international"].filter (fun f => hasCol f df))
    ++ ((colNames df).filter (fun c => pyStartsWith c "loc_"))

/-- Lines 261-263: coerce the salary column numeric, then
`df.dropna(subset=[salary_col])`. -/
def coerceDropSalary (sc : String) (df : Table) : Table :=
  let df' := updateCol sc (List.map toNumericVal) df
  filterRowsBy (((lookupCol sc df').getD []).map (fun v => !(v == Val.vNull))) df'

/-- Shallow embedding of `train_salary_model` after the CSV load: feature
engineering, salary resolution/cleaning, feature selection, and the metadata
actually persisted by `joblib.dump`; each `logger.error` + `return` becomes
an `Except.error`. -/
def trainSalaryModel (matcher : String → String → Bool)
    (yearsExtract : String → Option ℚ) (t : Table) : Except String TrainArtifact :=
  let df0 := preprocess_data matcher yearsExtract t
  match determine_salary_column df0 with
  | none => Except.error "no valid salary column found"
  | some sc =>
      let df := coerceDropSalary sc df0
      if rowCount df = 0 then Except.error "no valid salary data after cleaning"
      else
        let categorical := trainCategorical df0
        let numerical1 := trainNumerical1 df
        if (categorical ++ numerical1).isEmpty then
          Except.error "no features found for training"
        else
          let feature_cols := dedupF (categorical ++ numerical1)
          if (feature_cols.filter (fun c => !(hasCol c df))).isEmpty then
            Except.ok
              ⟨feature_cols, categorical, trainNumerical2 df,
               (colNames df).filter (fun c => pyStartsWith c "skill_"),
               (colNames df).filter (fun c => pyStartsWith c "tech_"),
               determine_location_column df0, determine_contract_column df0,
               determine_title_column df0, sc, df⟩
          else Except.error "columns missing from the DataFrame"

/-! ## Inference-time input builder (src/dashboards/app.py lines 447-483) -/

/-- `re.sub(r'[^a-zA-Z0-9_]', '', f"skill_{tech.lower()}")` (lines 470-472):
the dashboard-side normalization of a user-chosen technology name. -/
def normalizeTechApp (tech : String) : String :=
  String.mk (("skill_" ++ pyLower tech).toList.filter isWordChar)

/-- `jobs_df[col].mode()[0]`: pandas drops nulls and returns the most frequent
value.  pandas breaks count ties by sorted order; the model breaks them by
first occurrence (no claim below depends on a tie).  `none` models the raise
on an all-null column (`mode()` is empty, so `[0]` fails). -/
def modeCells (c : Col) : Option Val :=
  let nn := c.filter (fun v => !(v == Val.vNull))
  match dedupF nn with
  | [] => none
  | x :: xs =>
      some (xs.foldl (fun best cand =>
        if (nn.filter (fun v => v == cand)).length >
            (nn.filter (fun v => v == best)).length then cand else best) x)

/-- Line 457: `jobs_df[col].mode()[0] if col in jobs_df and not
jobs_df[col].empty else 'Desconocido'`. -/
def modeOrUnknown (jobsDf : Table) (colName : String) : Option Val :=
  match lookupCol colName jobsDf with
  | some c => if c.length = 0 then some (Val.vStr "Desconocido") else modeCells c
  | none => some (Val.vStr "Desconocido")

/-- Lines 452-457: which feature columns are zero-defaulted. -/
def zeroDefaultCol (c : String) : Bool :=
  pyStartsWith c "skill_" || c == "experience_years" ||
    c == "seniority_senior" || c == "seniority_junior"

/-- One default entry (lines 452-457): zero for the skill/numeric trio,
mode-or-`'Desconocido'` otherwise; `none` when the mode lookup raises. -/
def defaultCell (jobsDf : Table) (col : String) : Option (String × Val) :=
  if zeroDefaultCol col then some (col, Val.vNum 0)
  else (modeOrUnknown jobsDf col).map (fun v => (col, v))

/-- Step 1 of the builder: one default per feature column, in `feature_cols`
order; `none` when a mode lookup raises. -/
def defaultsFor (jobsDf : Table) (fc : List String) : Option (List (String × Val)) :=
  fc.mapM (defaultCell jobsDf)

/-- Python dict update of an existing key (keeps its position). -/
def setField (k : String) (v : Val) : List (String × Val) → List (String × Val)
  | [] => []
  | p :: ps => (if p.1 == k then (p.1, v) else p) :: setField k v ps

def lookupField (k : String) : List (String × Val) → Option Val
  | [] => none
  | p :: ps => if p.1 == k then some p.2 else lookupField k ps

/-- Line 460: `next((c for c in feature_cols if c in ['ubicacion','location']), None)`. -/
def locColName (fc : List String) : Option String :=
  fc.find? (fun c => c == "ubicacion" || c == "location")

/-- Line 461. -/
def contractColName (fc : List String) : Option String :=
  fc.find? (fun c => c == "tipo_contrato" || c == "jornada" || c == "contract_type")

/-- Step 3 of the builder (lines 469-475): set the `skill_*` flag of every
user-selected technology that normalizes to a feature column. -/
def applyTechSelections (fc : List String) (techs : List String)
    (row : List (String × Val)) : List (String × Val) :=
  techs.foldl (fun r tech =>
    let nm := normalizeTechApp tech
    if fc.contains nm then setField nm (Val.vNum 1) r else r) row

/-- Lines 478-481: `pd.DataFrame([input_data])[feature_cols]`. -/
def reorderRow (fc : List String) (row : List (String × Val)) : List (String × Val) :=
  fc.map (fun c => (c, (lookupField c row).getD Val.vNull))

/-- Step 2 of the builder (lines 459-466): overwrite the resolved
location/contract feature column with the user's input when both exist. -/
def applyOverride (target : Option String) (input : Option Val)
    (row : List (String × Val)) : List (String × Val) :=
  match target, input with
  | some c, some v => setField c v row
  | _, _ => row

/-- Shallow embedding of the dashboard's prediction-input builder
(src/dashboards/app.py lines 447-483): defaults for every feature column,
user overrides for location/contract, `skill_*` flags for the selected
technologies, and reordering to exactly `feature_cols`. -/
def buildInputRow (fc : List String) (jobsDf : Table) (locIn contractIn : Option Val)
    (techs : List String) : Option (List (String × Val)) :=
  (defaultsFor jobsDf fc).map (fun row0 =>
    reorderRow fc (applyTechSelections fc techs
      (applyOverride (contractColName fc) contractIn
        (applyOverride (locColName fc) locIn row0))))

/-! ## General lemmas about the table model -/

theorem mem_dedupFirst_iff {α : Type} [BEq α] [LawfulBEq α] (a : α) (l acc : List α) :
    a ∈ dedupFirst l acc ↔ a ∈ l ∨ a ∈ acc := by
  induction l generalizing acc with
  | nil => simp [dedupFirst]
  | cons x xs ih =>
      by_cases hx : acc.contains x
      · rw [dedupFirst, if_pos hx, ih]
        constructor
        · rintro (h | h)
          · exact Or.inl (List.mem_cons_of_mem _ h)
          · exact Or.inr h
        · rintro (h | h)
          · rcases List.mem_cons.mp h with rfl | h
            · exact Or.inr ((List.elem_iff.mp hx))
            · exact Or.inl h
          · exact Or.inr h
      · rw [dedupFirst, if_neg hx, ih]
        constructor
        · rintro (h | h)
          · exact Or.inl (List.mem_cons_of_mem _ h)
          · rcases List.mem_cons.mp h with rfl | h
            · exact Or.inl (List.mem_cons_self _ _)
            · exact Or.inr h
        · rintro (h | h)
          · rcases List.mem_cons.mp h with rfl | h
            · exact Or.inr (List.mem_cons_self _ _)
            · exact Or.inl h
          · exact Or.inr (List.mem_cons_of_mem _ h)

theorem mem_dedupF_iff {α : Type} [BEq α] [LawfulBEq α] (a : α) (l : List α) :
    a ∈ dedupF l ↔ a ∈ l := by
  rw [dedupF, mem_dedupFirst_iff]; simp

theorem nodup_dedupFirst {α : Type} [BEq α] [LawfulBEq α] (l acc : List α)
    (hacc : acc.Nodup) : (dedupFirst l acc).Nodup := by
  induction l generalizing acc with
  | nil => simpa [dedupFirst] using hacc
  | cons x xs ih =>
      by_cases hx : acc.contains x
      · rw [dedupFirst, if_pos hx]; exact ih _ hacc
      · rw [dedupFirst, if_neg hx]
        exact ih _ (List.Nodup.cons (by simpa using hx) hacc)

theorem nodup_dedupF {α : Type} [BEq α] [LawfulBEq α] (l : List α) : (dedupF l).Nodup :=
  nodup_dedupFirst l [] List.nodup_nil

theorem dedupFirst_eq_reverse_append {α : Type} [BEq α] [LawfulBEq α]
    (l acc : List α) (h : ∀ a ∈ l, a ∈ acc) : dedupFirst l acc = acc.reverse := by
  induction l generalizing acc with
  | nil => rfl
  | cons x xs ih =>
      rw [dedupFirst, if_pos (List.elem_iff.mpr (h x (List.mem_cons_self _ _)))]
      exact ih _ (fun a ha => h a (List.mem_cons_of_mem _ ha))

theorem dedupFirst_of_disjoint {α : Type} [BEq α] [LawfulBEq α] :
    ∀ (l acc : List α), l.Nodup → (∀ a ∈ l, a ∉ acc) →
      dedupFirst l acc = acc.reverse ++ l
  | [], acc, _, _ => by simp [dedupFirst]
  | x :: xs, acc, hnd, hdis => by
      rcases List.nodup_cons.mp hnd with ⟨hx, hxs⟩
      rw [dedupFirst, if_neg (by simpa using hdis x (List.mem_cons_self _ _))]
      rw [dedupFirst_of_disjoint xs (x :: acc) hxs]
      · simp
      · intro a ha
        simp only [List.mem_cons, not_or]
        exact ⟨fun hax => hx (hax ▸ ha), hdis a (List.mem_cons_of_mem _ ha)⟩

/-- `dedupF` fixes lists that are already duplicate-free. -/
theorem dedupF_eq_self {α : Type} [BEq α] [LawfulBEq α] (l : List α) (h : l.Nodup) :
    dedupF l = l := by
  rw [dedupF, dedupFirst_of_disjoint l [] h (by simp)]; rfl

theorem charListLe_total : ∀ a b : List Char, charListLe a b = true ∨ charListLe b a = true
  | [], _ => Or.inl rfl
  | _ :: _, [] => Or.inr rfl
  | a :: as, b :: bs => by
      rcases Nat.lt_trichotomy a.toNat b.toNat with h | h | h
      · exact Or.inl (by simp [charListLe, h])
      · have hba : ¬ b.toNat < a.toNat := by omega
        have hab : ¬ a.toNat < b.toNat := by omega
        rcases charListLe_total as bs with hc | hc
        · exact Or.inl (by simp [charListLe, hab, hba, hc])
        · exact Or.inr (by simp [charListLe, hab, hba, hc])
      · exact Or.inr (by simp [charListLe, h])

theorem charListLe_trans : ∀ a b c : List Char,
    charListLe a b = true → charListLe b c = true → charListLe a c = true
  | [], _, _, _, _ => rfl
  | a :: as, [], c, hab, _ => by simp [charListLe] at hab
  | a :: as, b :: bs, [], _, hbc => by simp [charListLe] at hbc
  | a :: as, b :: bs, c :: cs, hab, hbc => by
      simp only [charListLe] at hab hbc ⊢
      rcases Nat.lt_trichotomy a.toNat b.toNat with h1 | h1 | h1 <;>
        rcases Nat.lt_trichotomy b.toNat c.toNat with h2 | h2 | h2
      all_goals
        first
        | (rw [if_pos (by omega)])
        | (rw [if_neg (by omega), if_neg (by omega)]
           rw [if_neg (by omega), if_neg (by omega)] at hab hbc
           exact charListLe_trans as bs cs hab hbc)
        | (exfalso
           rw [if_neg (by omega), if_pos (by omega)] at hab
           exact Bool.false_ne_true hab)
        | (exfalso
           rw [if_neg (by omega), if_pos (by omega)] at hbc
           exact Bool.false_ne_true hbc)

instance : IsTotal String (fun a b => strLe a b = true) :=
  ⟨fun a b => charListLe_total a.toList b.toList⟩

instance : IsTrans String (fun a b => strLe a b = true) :=
  ⟨fun a b c => charListLe_trans a.toList b.toList c.toList⟩

theorem mem_sortStr (a : String) (l : List String) : a ∈ sortStr l ↔ a ∈ l := by
  rw [sortStr]; exact List.mem_insertionSort _

/-! ## Lookup and update lemmas -/

theorem lookupCol_eq_none (n : String) (t : Table) :
    lookupCol n t = none ↔ n ∉ colNames t := by
  induction t with
  | nil => simp [lookupCol, colNames]
  | cons p ps ih =>
      by_cases hp : p.1 = n
      · simp [lookupCol, colNames, hp]
      · simp only [lookupCol, beq_iff_eq, hp, if_false, ih, colNames, List.map_cons,
          List.mem_cons, not_or]
        exact ⟨fun h => ⟨fun hc => hp hc.symm, h⟩, fun h => h.2⟩

theorem hasCol_iff_mem (n : String) (t : Table) :
    hasCol n t = true ↔ n ∈ colNames t := by
  simp only [hasCol, colNames, List.any_eq_true, List.mem_map, beq_iff_eq]

theorem lookupCol_isSome_of_mem {n : String} {t : Table} (h : n ∈ colNames t) :
    ∃ c, lookupCol n t = some c := by
  rcases ho : lookupCol n t with _ | c
  · exact absurd ((lookupCol_eq_none n t).mp ho) (by simpa using h)
  · exact ⟨c, rfl⟩

theorem lookupCol_updateCol_self (n : String) (f : Col → Col) (t : Table) :
    lookupCol n (updateCol n f t) = (lookupCol n t).map f := by
  induction t with
  | nil => rfl
  | cons p ps ih =>
      by_cases hp : p.1 = n
      · simp [updateCol, lookupCol, hp]
      · simp [updateCol, lookupCol, hp, ih]

theorem lookupCol_updateCol_ne (n m : String) (f : Col → Col) (t : Table)
    (h : n ≠ m) : lookupCol n (updateCol m f t) = lookupCol n t := by
  induction t with
  | nil => rfl
  | cons p ps ih =>
      by_cases hp : p.1 = m
      · have hpn : p.1 ≠ n := fun hc => h (hc.symm.trans hp)
        simp [updateCol, lookupCol, hp, hpn, Ne.symm h, ih]
      · by_cases hpn : p.1 = n
        · simp [updateCol, lookupCol, hp, hpn, h]
        · simp [updateCol, lookupCol, hp, hpn, ih]

theorem colNames_overwriteCol (n : String) (c : Col) (t : Table) :
    colNames (overwriteCol n c t) = colNames t := by
  induction t with
  | nil => rfl
  | cons p ps ih =>
      by_cases hp : p.1 = n
      · simp [overwriteCol, colNames, hp] at ih ⊢; exact ih
      · simp [overwriteCol, colNames, hp] at ih ⊢; exact ih

theorem colNames_setCol_of_hasCol (n : String) (c : Col) (t : Table)
    (h : hasCol n t = true) : colNames (setCol n c t) = colNames t := by
  rw [setCol, if_pos h]; exact colNames_overwriteCol n c t

theorem lookupCol_overwriteCol_self (n : String) (c : Col) (t : Table)
    (hm : n ∈ colNames t) : lookupCol n (overwriteCol n c t) = some c := by
  induction t with
  | nil => simp [colNames] at hm
  | cons p ps ih =>
      by_cases hp : p.1 = n
      · simp [overwriteCol, lookupCol, hp]
      · simp only [overwriteCol, beq_iff_eq, hp, if_false, lookupCol]
        exact ih (by simpa [colNames, Ne.symm hp] using hm)

theorem lookupCol_append_single_self (n : String) (c : Col) (t : Table)
    (hn : n ∉ colNames t) : lookupCol n (t ++ [(n, c)]) = some c := by
  induction t with
  | nil => simp [lookupCol]
  | cons p ps ih =>
      have hp : p.1 ≠ n := fun hc => hn (by simp [colNames, hc])
      simp only [List.cons_append, lookupCol, beq_iff_eq, hp, if_false]
      exact ih (fun hm => hn (by simp [colNames] at hm ⊢; exact Or.inr hm))

theorem lookupCol_append_single_ne (n m : String) (c : Col) (t : Table)
    (h : n ≠ m) : lookupCol n (t ++ [(m, c)]) = lookupCol n t := by
  induction t with
  | nil => simp [lookupCol, Ne.symm h]
  | cons p ps ih =>
      by_cases hpn : p.1 = n
      · simp [lookupCol, hpn]
      · simp only [List.cons_append, lookupCol, beq_iff_eq, hpn, if_false]
        exact ih

theorem lookupCol_setCol_self (n : String) (c : Col) (t : Table) :
    lookupCol n (setCol n c t) = some c := by
  rw [setCol]
  by_cases h : hasCol n t = true
  · rw [if_pos h]
    exact lookupCol_overwriteCol_self n c t ((hasCol_iff_mem n t).mp h)
  · rw [if_neg h]
    exact lookupCol_append_single_self n c t (fun hm => h ((hasCol_iff_mem n t).mpr hm))

theorem lookupCol_overwriteCol_ne (n m : String) (c : Col) (t : Table) (h : n ≠ m) :
    lookupCol n (overwriteCol m c t) = lookupCol n t := by
  induction t with
  | nil => rfl
  | cons p ps ih =>
      by_cases hp : p.1 = m
      · have hpn : p.1 ≠ n := fun hc => h (hc.symm.trans hp)
        simp [overwriteCol, lookupCol, hp, hpn, Ne.symm h, ih]
      · by_cases hpn : p.1 = n
        · simp [overwriteCol, lookupCol, hp, hpn, h]
        · simp [overwriteCol, lookupCol, hp, hpn, ih]

theorem lookupCol_setCol_ne (n m : String) (c : Col) (t : Table) (h : n ≠ m) :
    lookupCol n (setCol m c t) = lookupCol n t := by
  rw [setCol]
  by_cases hm : hasCol m t = true
  · rw [if_pos hm]
    exact lookupCol_overwriteCol_ne n m c t h
  · rw [if_neg hm]
    exact lookupCol_append_single_ne n m c t h

theorem lookupCol_filterRowsBy (n : String) (mask : List Bool) (t : Table) :
    lookupCol n (filterRowsBy mask t) = (lookupCol n t).map (applyMask mask) := by
  induction t with
  | nil => rfl
  | cons p ps ih =>
      by_cases hp : p.1 = n
      · simp [filterRowsBy, lookupCol, hp]
      · simp [filterRowsBy, lookupCol, hp, ih]

theorem hasCol_updateCol (n m : String) (f : Col → Col) (t : Table) :
    hasCol n (updateCol m f t) = hasCol n t := by
  induction t with
  | nil => rfl
  | cons p ps ih =>
      by_cases hp : p.1 = m
      · simp only [updateCol, beq_iff_eq, hp, if_true, hasCol, List.any_cons] at ih ⊢
        rw [ih]
      · simp only [updateCol, beq_iff_eq, hp, if_false, hasCol, List.any_cons] at ih ⊢
        rw [ih]

/-! ## Claim C10 -/

/-- C10: `clean_salary` returns every non-string value unchanged (the
`isinstance(salary_value, str)` guard at src/etl.py lines 179-180): numbers,
nulls/NaN — and every other non-string cell kind — pass through the salary
cleaning untouched. -/
theorem C10_clean_salary_nonstring_passthrough :
    (∀ q : ℚ, clean_salary (Val.vNum q) = Val.vNum q) ∧
    clean_salary Val.vNull = Val.vNull ∧
    (∀ d : String, clean_salary (Val.vDate d) = Val.vDate d) ∧
    (∀ b : Bool, clean_salary (Val.vBool b) = Val.vBool b) ∧
    (∀ ts : List String, clean_salary (Val.vList ts) = Val.vList ts) :=
  ⟨fun _ => rfl, rfl, fun _ => rfl, fun _ => rfl, fun _ => rfl⟩

/-! ## Claim C1 -/

/-- C1 fails as stated: `"-100"` is a numeric string (Python
`float("-100")` returns `-100.0`), yet `clean_salary` returns null for it,
because the leading `-` routes the string into the range branch, where
`float(parts[0])` fails on the empty string. -/
theorem C1_counterexample_negative_numeral :
    pyFloat? "-100" = some (-100) ∧ clean_salary (Val.vStr "-100") = Val.vNull := by
  constructor
  · have h1 : pyFloat? "-100" = some (mkRat (-100) 1) := by decide
    have h2 : (mkRat (-100) 1 : ℚ) = -100 := by
      rw [Rat.mkRat_one]; norm_num
    rw [h1, h2]
  · decide

/-- C1 (amended): after stripping `$`, `,`, `€` and whitespace, a string
*containing* `-` is treated as a range — the mean of the first two `-`
separated pieces is returned when both parse as (necessarily unsigned)
floats, null otherwise; a string *without* `-` returns its parsed value, or
null when unparseable; and the function is total on strings, always
returning a number or null (never raising).  The original claim's "every
bare numeric string" must exclude numerals containing `-` (negative
numbers), per the counterexample above. -/
theorem C1_clean_salary_characterization (s : String) :
    (∀ a b : ℚ, ∀ p0 p1 : String, ∀ rest : List String,
        (removeCurrencySymbols s).toList.contains '-' = true →
        pySplit '-' (removeCurrencySymbols s) = p0 :: p1 :: rest →
        pyFloat? (pyStrip p0) = some a → pyFloat? (pyStrip p1) = some b →
        clean_salary (Val.vStr s) = Val.vNum ((a + b) / 2)) ∧
    (∀ p0 p1 : String, ∀ rest : List String,
        (removeCurrencySymbols s).toList.contains '-' = true →
        pySplit '-' (removeCurrencySymbols s) = p0 :: p1 :: rest →
        (pyFloat? (pyStrip p0) = none ∨ pyFloat? (pyStrip p1) = none) →
        clean_salary (Val.vStr s) = Val.vNull) ∧
    (∀ a : ℚ,
        (removeCurrencySymbols s).toList.contains '-' = false →
        pyFloat? (removeCurrencySymbols s) = some a →
        clean_salary (Val.vStr s) = Val.vNum a) ∧
    ((removeCurrencySymbols s).toList.contains '-' = false →
        pyFloat? (removeCurrencySymbols s) = none →
        clean_salary (Val.vStr s) = Val.vNull) ∧
    (clean_salary (Val.vStr s) = Val.vNull ∨ ∃ q, clean_salary (Val.vStr s) = Val.vNum q) := by
  have hrange : ∀ a b : ℚ, ∀ p0 p1 : String, ∀ rest : List String,
      (removeCurrencySymbols s).toList.contains '-' = true →
      pySplit '-' (removeCurrencySymbols s) = p0 :: p1 :: rest →
      pyFloat? (pyStrip p0) = some a → pyFloat? (pyStrip p1) = some b →
      clean_salary (Val.vStr s) = Val.vNum ((a + b) / 2) := by
    intro a b p0 p1 rest hdash hsplit hp0 hp1
    simp only [clean_salary, hdash, if_true, hsplit, hp0, hp1, qDiv_eq, qAdd_eq,
      Rat.mkRat_one]
    norm_num
  have hrangefail : ∀ p0 p1 : String, ∀ rest : List String,
      (removeCurrencySymbols s).toList.contains '-' = true →
      pySplit '-' (removeCurrencySymbols s) = p0 :: p1 :: rest →
      (pyFloat? (pyStrip p0) = none ∨ pyFloat? (pyStrip p1) = none) →
      clean_salary (Val.vStr s) = Val.vNull := by
    intro p0 p1 rest hdash hsplit hfail
    simp only [clean_salary, hdash, if_true, hsplit]
    rcases hfail with hf | hf
    · rw [hf]
    · rw [hf]
      cases h0 : pyFloat? (pyStrip p0) <;> rfl
  have hsingle : ∀ a : ℚ,
      (removeCurrencySymbols s).toList.contains '-' = false →
      pyFloat? (removeCurrencySymbols s) = some a →
      clean_salary (Val.vStr s) = Val.vNum a := by
    intro a hdash hparse
    simp only [clean_salary, hdash, Bool.false_eq_true, if_false, hparse]
  have hsinglefail :
      (removeCurrencySymbols s).toList.contains '-' = false →
      pyFloat? (removeCurrencySymbols s) = none →
      clean_salary (Val.vStr s) = Val.vNull := by
    intro hdash hparse
    simp only [clean_salary, hdash, Bool.false_eq_true, if_false, hparse]
  refine ⟨hrange, hrangefail, hsingle, hsinglefail, ?_⟩
  cases hdash : (removeCurrencySymbols s).toList.contains '-'
  · cases hp : pyFloat? (removeCurrencySymbols s)
    · exact Or.inl (hsinglefail hdash hp)
    · exact Or.inr ⟨_, hsingle _ hdash hp⟩
  · cases hsp : pySplit '-' (removeCurrencySymbols s) with
    | nil =>
        refine Or.inl ?_
        simp only [clean_salary, hdash, if_true, hsp]
    | cons p0 tl =>
        cases tl with
        | nil =>
            refine Or.inl ?_
            simp only [clean_salary, hdash, if_true, hsp]
        | cons p1 rest =>
            cases h0 : pyFloat? (pyStrip p0) with
            | none => exact Or.inl (hrangefail p0 p1 rest hdash hsp (Or.inl h0))
            | some a =>
                cases h1 : pyFloat? (pyStrip p1) with
                | none => exact Or.inl (hrangefail p0 p1 rest hdash hsp (Or.inr h1))
                | some b => exact Or.inr ⟨_, hrange a b p0 p1 rest hdash hsp h0 h1⟩

/-- Witness for C1: a dollar/comma/euro-decorated range resolves to the mean
of its endpoints, a plain numeral to its value, garbage to null. -/
theorem C1_clean_salary_characterization_witness :
    clean_salary (Val.vStr "1,000 - 2,000€") = Val.vNum ((1000 + 2000) / 2) ∧
    clean_salary (Val.vStr "$45000") = Val.vNum 45000 ∧
    clean_salary (Val.vStr "a buck") = Val.vNull :=
  ⟨(C1_clean_salary_characterization _).1 1000 2000 "1000 " " 2000" []
      (by decide) (by decide)
      (by decide) (by decide),
   (C1_clean_salary_characterization _).2.2.1 45000
      (by decide) (by decide),
   (C1_clean_salary_characterization _).2.2.2.1
      (by decide) (by decide)⟩

/-! ## Claim C2 -/

/-- C2 fails on the code, which contradicts the spec's documented intent: for
a record whose `tecnologias` cell lists both `"Python"` and `" python"`, the
feature engineering produces exactly one `skill_python` column (the claim's
one-column half holds), but the colliding indicator columns are summed
*without clamping* (src/model_salary.py line 198: `cleaned_cols[cleaned_name]
+= tech_dummies[col]`), so the record's flag value is `2`, not `1`.  The spec
(§4.3) prescribes "logical OR via addition then clamped" and declares
`skill_*` columns `{0,1}` (§3 FeatureRow), so the missing clamp is a slip in
the code. -/
theorem C2_skill_dummies_not_clamped :
    techSkillColumns [Val.vStr "Python, python"] = [("skill_python", [2])] := by
  decide

/-! ## Claim C4 -/

/-- Spec-side matching notion for the Column Resolver: a candidate matches
only if it is present as a column *and* has at least one non-null value. -/
def specCandidateMatches (t : Table) (c : String) : Prop :=
  ∃ col, lookupCol c t = some col ∧ ∃ v ∈ col, v ≠ Val.vNull

theorem colHasData_iff (t : Table) (c : String) :
    colHasData t c = true ↔ specCandidateMatches t c := by
  rw [colHasData, specCandidateMatches]
  cases h : lookupCol c t with
  | none =>
      simp only [Bool.false_eq_true, false_iff]
      rintro ⟨col, hcol, -⟩
      exact Option.noConfusion hcol
  | some col =>
      simp only [List.any_eq_true, bne_iff_ne, ne_eq, Bool.not_eq_true]
      constructor
      · rintro ⟨v, hv, hvn⟩
        exact ⟨col, rfl, v, hv, by simpa using hvn⟩
      · rintro ⟨col', hcol', v, hv, hvn⟩
        cases Option.some.injEq .. ▸ hcol' with
        | refl => exact ⟨v, hv, by simpa using hvn⟩

instance (t : Table) (c : String) : Decidable (specCandidateMatches t c) :=
  decidable_of_iff _ (colHasData_iff t c)

/-- Spec-side resolver: return the first candidate, in priority order, that
is present with at least one non-null value; an all-null column is treated
as absent; null when no candidate matches. -/
def resolveFirstMatch (t : Table) : List String → Option String
  | [] => none
  | c :: cs => if specCandidateMatches t c then some c else resolveFirstMatch t cs

theorem find_colHasData_eq_resolveFirstMatch (t : Table) :
    ∀ cands : List String, cands.find? (colHasData t) = resolveFirstMatch t cands
  | [] => rfl
  | c :: cs => by
      by_cases h : specCandidateMatches t c
      · rw [resolveFirstMatch, if_pos h,
          List.find?_cons_of_pos _ ((colHasData_iff t c).mpr h)]
      · rw [resolveFirstMatch, if_neg h,
          List.find?_cons_of_neg _ (by simpa using fun hb => h ((colHasData_iff t c).mp hb))]
        exact find_colHasData_eq_resolveFirstMatch t cs

/-- C4: each of the four column resolvers (src/model_salary.py lines 41-65)
returns exactly the first name of its fixed priority list that is present
with at least one non-null value (all-null columns are treated as absent),
returns null when no candidate matches, and — being a total function — never
raises.  In particular, a table with `salario_promedio` entirely null and
`salary` populated resolves to `"salary"`. -/
theorem C4_column_resolvers (t : Table) :
    determine_salary_column t = resolveFirstMatch t ["salario_promedio", "salary", "salario"] ∧
    determine_location_column t = resolveFirstMatch t ["ubicacion", "location"] ∧
    determine_contract_column t = resolveFirstMatch t ["tipo_contrato", "jornada", "contract_type"] ∧
    determine_title_column t = resolveFirstMatch t ["titulo", "job_title"] ∧
    ((∀ c ∈ ["salario_promedio", "salary", "salario"], ¬ specCandidateMatches t c) →
      determine_salary_column t = none) ∧
    determine_salary_column
        [("salario_promedio", [Val.vNull, Val.vNull]), ("salary", [Val.vNum (mkRat 52000 1), Val.vNull])]
      = some "salary" := by
  refine ⟨find_colHasData_eq_resolveFirstMatch t _, find_colHasData_eq_resolveFirstMatch t _,
    find_colHasData_eq_resolveFirstMatch t _, find_colHasData_eq_resolveFirstMatch t _,
    ?_, by decide⟩
  intro hnone
  rw [determine_salary_column, find_colHasData_eq_resolveFirstMatch t]
  simp only [resolveFirstMatch]
  rw [if_neg (hnone _ (by simp)), if_neg (hnone _ (by simp)), if_neg (hnone _ (by simp))]

/-- Witness for C4: on a table whose only column is a populated `puesto`,
no salary candidate matches and the resolver returns null. -/
theorem C4_column_resolvers_witness :
    determine_salary_column [("puesto", [Val.vStr "Data Engineer"])] = none :=
  (C4_column_resolvers _).2.2.2.2.1 (by decide)

/-! ## Claim C5 -/

theorem combine2_get? (a b : Col) (i : Nat) (x : Val) (hx : x ≠ Val.vNull)
    (h : a.get? i = some x) : (combine2 a b).get? i = some x := by
  induction a generalizing b i with
  | nil => simp at h
  | cons v vs ih =>
      cases b with
      | nil => exact h
      | cons w ws =>
          cases i with
          | zero =>
              simp only [List.get?] at h
              cases h
              simp [combine2, hx]
          | succ j =>
              simp only [List.get?] at h
              simpa [combine2] using ih ws j h

theorem foldl_combine2_get? (cs : List Col) (c : Col) (i : Nat) (x : Val)
    (hx : x ≠ Val.vNull) (h : c.get? i = some x) :
    (cs.foldl combine2 c).get? i = some x := by
  induction cs generalizing c with
  | nil => exact h
  | cons d ds ih => exact ih _ (combine2_get? c d i x hx h)

theorem lookupCol_map_pair (f : String → Col) (n : String) :
    ∀ ns : List String, n ∈ ns →
      lookupCol n (ns.map (fun m => (m, f m))) = some (f n)
  | [], h => by simp at h
  | m :: ms, h => by
      by_cases hm : m = n
      · subst hm; simp [lookupCol]
      · have : n ∈ ms := by
          rcases List.mem_cons.mp h with rfl | hmem
          · exact absurd rfl hm
          · exact hmem
        simpa [lookupCol, hm] using lookupCol_map_pair f n ms this

theorem mem_colNames_of_colsNamed {n : String} {t : Table} {c : Col} {cs : List Col}
    (h : colsNamed n t = c :: cs) : n ∈ colNames t := by
  have hne : (t.filter (fun p => p.1 == n)) ≠ [] := by
    intro hnil
    rw [colsNamed, hnil] at h
    exact List.noConfusion h
  rcases List.exists_mem_of_ne_nil _ hne with ⟨p, hp⟩
  have hmem := List.mem_filter.mp hp
  exact List.mem_map.mpr ⟨p, hmem.1, by simpa using hmem.2⟩

theorem lookupCol_mergeDupCols (n : String) (t : Table) (h : n ∈ colNames t) :
    lookupCol n (mergeDupCols t) = some (combineAll (colsNamed n t)) := by
  rw [mergeDupCols]
  exact lookupCol_map_pair _ n _ (by rw [mem_sortStr, mem_dedupF_iff]; exact h)

/-- C5: when the static rename produces several columns with the same
canonical name, the Schema Unifier's duplicate merge
(`df.T.groupby(level=0).first().T`, src/etl.py line 165) keeps, for each row,
the first non-null value across the duplicates.  In particular, whenever the
*first* duplicate column holds a non-null value `X` at row `i` — the claim's
scenario, where the later duplicate is null there, is a special case — the
merged column holds `X` at row `i`, not null. -/
theorem C5_duplicate_merge_first_non_null (t : Table) (n : String) (i : Nat)
    (x : Val) (c : Col) (cs : List Col) (hx : x ≠ Val.vNull)
    (hcols : colsNamed n (renameColumns t) = c :: cs)
    (hcell : c.get? i = some x) :
    ∃ merged, lookupCol n (mergeDupCols (renameColumns t)) = some merged ∧
      merged.get? i = some x := by
  refine ⟨combineAll (colsNamed n (renameColumns t)),
    lookupCol_mergeDupCols n _ (mem_colNames_of_colsNamed hcols), ?_⟩
  rw [hcols, combineAll]
  exact foldl_combine2_get? cs c i x hx hcell

/-- Witness for C5: `title` and `titulo` both rename to `puesto`; the first
carries `"Dev"` and the second is null, and the merged `puesto` column holds
`"Dev"`. -/
theorem C5_duplicate_merge_first_non_null_witness :
    ∃ merged,
      lookupCol "puesto"
          (mergeDupCols (renameColumns
            [("title", [Val.vStr "Dev"]), ("titulo", [Val.vNull])])) = some merged ∧
      merged.get? 0 = some (Val.vStr "Dev") :=
  C5_duplicate_merge_first_non_null
    [("title", [Val.vStr "Dev"]), ("titulo", [Val.vNull])] "puesto" 0
    (Val.vStr "Dev") [Val.vStr "Dev"] [[Val.vNull]]
    (by decide) (by decide) (by decide)

/-! ## Claim C6 -/

/-- The coerced bound column the imputation mask reads. -/
def coercedCol (n : String) (t : Table) : Col :=
  ((lookupCol n t).getD []).map toNumericVal

/-- The (min, max) pairs after imputation, as `salaryMinMaxStep` computes
them. -/
def imputedPairsOf (rng : Nat → Nat) (t : Table) : List (Val × Val) :=
  imputePairs rng 0 (coercedCol "salario_min" t) (coercedCol "salario_max" t)

/-- How many rows before row `i` have both bounds null — the number of random
draws consumed before row `i`'s draw. -/
def bothNullCount : Col → Col → Nat → Nat
  | _, _, 0 => 0
  | a :: as, b :: bs, j + 1 =>
      (if a = Val.vNull ∧ b = Val.vNull then 1 else 0) + bothNullCount as bs j
  | _, _, _ + 1 => 0

theorem imputePairs_get? (rng : Nat → Nat) :
    ∀ (k : Nat) (mn mx : Col) (i : Nat) (a b : Val),
      mn.get? i = some a → mx.get? i = some b →
      ((a = Val.vNull ∧ b = Val.vNull →
          (imputePairs rng k mn mx).get? i =
            some (Val.vNum (mkRat ((27000 + rng (k + bothNullCount mn mx i) % 83001 : Nat) : Int) 1),
                  Val.vNum (mkRat ((27000 + rng (k + bothNullCount mn mx i) % 83001 : Nat) : Int) 1))) ∧
        (¬ (a = Val.vNull ∧ b = Val.vNull) →
          (imputePairs rng k mn mx).get? i = some (a, b)))
  | k, [], mx, i, a, b, ha, hb => by simp at ha
  | k, mn, [], i, a, b, ha, hb => by simp at hb
  | k, a0 :: as, b0 :: bs, 0, a, b, ha, hb => by
      simp only [List.get?] at ha hb
      obtain rfl := Option.some.inj ha
      obtain rfl := Option.some.inj hb
      by_cases h0 : a0 = Val.vNull ∧ b0 = Val.vNull
      · refine ⟨fun _ => ?_, fun hc => absurd h0 hc⟩
        simp [imputePairs, h0, bothNullCount]
      · refine ⟨fun hc => absurd hc h0, fun _ => ?_⟩
        simp [imputePairs, h0, bothNullCount]
  | k, a0 :: as, b0 :: bs, j + 1, a, b, ha, hb => by
      simp only [List.get?] at ha hb
      have ih0 := imputePairs_get? rng k as bs j a b ha hb
      have ih1 := imputePairs_get? rng (k + 1) as bs j a b ha hb
      by_cases h0 : a0 = Val.vNull ∧ b0 = Val.vNull
      · obtain ⟨h01, h02⟩ := h0
        subst h01
        subst h02
        constructor
        · intro hc
          simp only [imputePairs, if_pos
            (⟨rfl, rfl⟩ : Val.vNull = Val.vNull ∧ Val.vNull = Val.vNull), List.get?]
          rw [ih1.1 hc]
          have harith : k + 1 + bothNullCount as bs j =
              k + bothNullCount (Val.vNull :: as) (Val.vNull :: bs) (j + 1) := by
            simp [bothNullCount]
            omega
          rw [harith]
        · intro hc
          simp only [imputePairs, if_pos
            (⟨rfl, rfl⟩ : Val.vNull = Val.vNull ∧ Val.vNull = Val.vNull), List.get?]
          exact ih1.2 hc
      · constructor
        · intro hc
          simp only [imputePairs, if_neg h0, List.get?]
          rw [ih0.1 hc]
          have harith : bothNullCount as bs j =
              bothNullCount (a0 :: as) (b0 :: bs) (j + 1) := by
            simp [bothNullCount, h0]
          rw [harith]
        · intro hc
          simp only [imputePairs, if_neg h0, List.get?]
          exact ih0.2 hc

theorem pyMean2_same (x : ℚ) : pyMean2 (Val.vNum x) (Val.vNum x) = Val.vNum x := by
  simp only [pyMean2, qDiv_eq, qAdd_eq, Rat.mkRat_one]
  norm_num

theorem coercedCol_eq_step (t : Table) :
    ((lookupCol "salario_min"
        (updateCol "salario_max" (List.map toNumericVal)
          (updateCol "salario_min" (List.map toNumericVal) t))).getD [])
      = coercedCol "salario_min" t ∧
    ((lookupCol "salario_max"
        (updateCol "salario_max" (List.map toNumericVal)
          (updateCol "salario_min" (List.map toNumericVal) t))).getD [])
      = coercedCol "salario_max" t := by
  constructor
  · rw [lookupCol_updateCol_ne _ _ _ _ (by decide), lookupCol_updateCol_self]
    cases h : lookupCol "salario_min" t <;> simp [coercedCol, h]
  · rw [lookupCol_updateCol_self, lookupCol_updateCol_ne _ _ _ _ (by decide)]
    cases h : lookupCol "salario_max" t <;> simp [coercedCol, h]

/-- C6: the random-salary fallback (src/etl.py lines 216-237).  When both
bound columns exist: the step publishes exactly the imputed (min, max) pairs
and their row mean as `salario_promedio`; a row is touched by the imputation
iff both its (coerced) bounds are null; the imputed value is
`27000 + rng k % 83001` — an integer in `[27000, 110000]` that also becomes
that row's `salario_promedio` — where `k` counts the missing rows before it,
so a fixed random stream (fixed seed) reproduces the same imputed value. -/
theorem C6_random_salary_imputation (rng : Nat → Nat) (t : Table)
    (hmin : hasCol "salario_min" t = true) (hmax : hasCol "salario_max" t = true) :
    lookupCol "salario_min" (salaryMinMaxStep rng t)
      = some ((imputedPairsOf rng t).map Prod.fst) ∧
    lookupCol "salario_max" (salaryMinMaxStep rng t)
      = some ((imputedPairsOf rng t).map Prod.snd) ∧
    lookupCol "salario_promedio" (salaryMinMaxStep rng t)
      = some ((imputedPairsOf rng t).map (fun p => pyMean2 p.1 p.2)) ∧
    (∀ i a b, (coercedCol "salario_min" t).get? i = some a →
        (coercedCol "salario_max" t).get? i = some b →
        ¬ (a = Val.vNull ∧ b = Val.vNull) →
        (imputedPairsOf rng t).get? i = some (a, b)) ∧
    (∀ i, (coercedCol "salario_min" t).get? i = some Val.vNull →
        (coercedCol "salario_max" t).get? i = some Val.vNull →
        ∃ v : Nat,
          v = 27000 + rng (bothNullCount (coercedCol "salario_min" t)
                (coercedCol "salario_max" t) i) % 83001 ∧
          27000 ≤ v ∧ v ≤ 110000 ∧
          (imputedPairsOf rng t).get? i
            = some (Val.vNum (mkRat (v : Int) 1), Val.vNum (mkRat (v : Int) 1)) ∧
          ((imputedPairsOf rng t).map (fun p => pyMean2 p.1 p.2)).get? i
            = some (Val.vNum (mkRat (v : Int) 1))) := by
  have hstep : salaryMinMaxStep rng t =
      setCol "salario_promedio" ((imputedPairsOf rng t).map (fun p => pyMean2 p.1 p.2))
        (setCol "salario_max" ((imputedPairsOf rng t).map Prod.snd)
          (setCol "salario_min" ((imputedPairsOf rng t).map Prod.fst)
            (updateCol "salario_max" (List.map toNumericVal)
              (updateCol "salario_min" (List.map toNumericVal) t)))) := by
    simp only [salaryMinMaxStep, hmin, hmax, and_self, if_true]
    rw [(coercedCol_eq_step t).1, (coercedCol_eq_step t).2]
    simp only [imputedPairsOf]
  refine ⟨?_, ?_, ?_, ?_, ?_⟩
  · rw [hstep, lookupCol_setCol_ne _ _ _ _ (by decide),
      lookupCol_setCol_ne _ _ _ _ (by decide), lookupCol_setCol_self]
  · rw [hstep, lookupCol_setCol_ne _ _ _ _ (by decide), lookupCol_setCol_self]
  · rw [hstep, lookupCol_setCol_self]
  · intro i a b ha hb hnb
    exact (imputePairs_get? rng 0 _ _ i a b ha hb).2 hnb
  · intro i ha hb
    refine ⟨27000 + rng (bothNullCount (coercedCol "salario_min" t)
      (coercedCol "salario_max" t) i) % 83001, rfl, Nat.le_add_right _ _, ?_, ?_, ?_⟩
    · have := Nat.mod_lt (rng (bothNullCount (coercedCol "salario_min" t)
        (coercedCol "salario_max" t) i)) (show 0 < 83001 by decide)
      omega
    · simpa using (imputePairs_get? rng 0 _ _ i _ _ ha hb).1 ⟨rfl, rfl⟩
    · rw [List.get?_map, imputedPairsOf,
        (imputePairs_get? rng 0 _ _ i _ _ ha hb).1 ⟨rfl, rfl⟩]
      rw [Option.map_some']
      rw [pyMean2_same]
      norm_num

/-- Witness for C6: with stream `fun k => 5 + k`, the first row (both bounds
null) is imputed with `27005` in min, max and promedio, and the second row
(min `40000`, max null) is untouched by the imputation. -/
theorem C6_random_salary_imputation_witness :
    lookupCol "salario_promedio"
        (salaryMinMaxStep (fun k => 5 + k)
          [("salario_min", [Val.vNull, Val.vNum (mkRat 40000 1)]),
           ("salario_max", [Val.vNull, Val.vNull])])
      = some [Val.vNum (mkRat 27005 1), Val.vNum (mkRat 40000 1)] ∧
    (imputedPairsOf (fun k => 5 + k)
        [("salario_min", [Val.vNull, Val.vNum (mkRat 40000 1)]),
         ("salario_max", [Val.vNull, Val.vNull])]).get? 1
      = some (Val.vNum (mkRat 40000 1), Val.vNull) := by
  have h := C6_random_salary_imputation (fun k => 5 + k)
    [("salario_min", [Val.vNull, Val.vNum (mkRat 40000 1)]),
     ("salario_max", [Val.vNull, Val.vNull])] (by decide) (by decide)
  refine ⟨?_, ?_⟩
  · rw [h.2.2.1]
    decide
  · exact h.2.2.2.1 1 (Val.vNum (mkRat 40000 1)) Val.vNull (by decide) (by decide)
      (by decide)

/-! ## Claim C7 -/

theorem toNumericVal_range (v : Val) :
    toNumericVal v = Val.vNull ∨ ∃ q, toNumericVal v = Val.vNum q := by
  cases v with
  | vStr s =>
      rw [toNumericVal]
      cases pyFloat? s with
      | none => exact Or.inl rfl
      | some q => exact Or.inr ⟨q, rfl⟩
  | vNum q => exact Or.inr ⟨q, rfl⟩
  | vBool b => exact Or.inr ⟨_, rfl⟩
  | vDate d => exact Or.inl rfl
  | vList ts => exact Or.inl rfl
  | vNull => exact Or.inl rfl

theorem mem_applyMask_selfMap (p : Val → Bool) :
    ∀ (c : Col) (v : Val), v ∈ applyMask (c.map p) c → v ∈ c ∧ p v = true
  | [], v, h => by simp [applyMask] at h
  | w :: ws, v, h => by
      simp only [List.map_cons, applyMask] at h
      by_cases hw : p w = true
      · rw [if_pos hw] at h
        rcases List.mem_cons.mp h with rfl | h
        · exact ⟨List.mem_cons_self _ _, hw⟩
        · have := mem_applyMask_selfMap p ws v h
          exact ⟨List.mem_cons_of_mem _ this.1, this.2⟩
      · rw [if_neg hw] at h
        have := mem_applyMask_selfMap p ws v h
        exact ⟨List.mem_cons_of_mem _ this.1, this.2⟩

theorem coerceDropSalary_salary_numeric (sc : String) (df : Table) :
    ∀ v ∈ (lookupCol sc (coerceDropSalary sc df)).getD [], ∃ q, v = Val.vNum q := by
  intro v hv
  rw [coerceDropSalary, lookupCol_filterRowsBy, lookupCol_updateCol_self] at hv
  cases hdf : lookupCol sc df with
  | none => rw [hdf] at hv; simp at hv
  | some c0 =>
      rw [hdf] at hv
      simp only [Option.map_some', Option.getD_some] at hv
      have hmem := mem_applyMask_selfMap (fun v => !(v == Val.vNull)) _ v hv
      have hvc : v ∈ c0.map toNumericVal := hmem.1
      rcases List.mem_map.mp hvc with ⟨w, _, rfl⟩
      rcases toNumericVal_range w with hnull | ⟨q, hq⟩
      · rw [hnull] at hmem
        simp at hmem
      · exact ⟨q, hq⟩

/-- C7: the training routine (src/model_salary.py lines 235-288, 484-485)
drops every row lacking a numeric salary before the train/test split — every
salary cell of a successfully-trained artifact's table is numeric — and
returns an explicit error, writing no artifact (no `joblib.dump` on the
early-return paths, so an existing artifact file is untouched), when: no
salary column resolves; zero rows remain after dropping null-salary rows; or
zero feature columns exist after engineering. -/
theorem C7_training_failure_semantics (matcher : String → String → Bool)
    (yearsExtract : String → Option ℚ) (t : Table) :
    (∀ a, trainSalaryModel matcher yearsExtract t = Except.ok a →
        ∀ v ∈ (lookupCol a.salary_col a.df).getD [], ∃ q, v = Val.vNum q) ∧
    (determine_salary_column (preprocess_data matcher yearsExtract t) = none →
        ∃ e, trainSalaryModel matcher yearsExtract t = Except.error e) ∧
    (∀ sc, determine_salary_column (preprocess_data matcher yearsExtract t) = some sc →
        rowCount (coerceDropSalary sc (preprocess_data matcher yearsExtract t)) = 0 →
        ∃ e, trainSalaryModel matcher yearsExtract t = Except.error e) ∧
    (∀ sc, determine_salary_column (preprocess_data matcher yearsExtract t) = some sc →
        rowCount (coerceDropSalary sc (preprocess_data matcher yearsExtract t)) ≠ 0 →
        trainCategorical (preprocess_data matcher yearsExtract t)
          ++ trainNumerical1 (coerceDropSalary sc (preprocess_data matcher yearsExtract t)) = [] →
        ∃ e, trainSalaryModel matcher yearsExtract t = Except.error e) := by
  refine ⟨?_, ?_, ?_, ?_⟩
  · intro a h
    simp only [trainSalaryModel] at h
    cases hds : determine_salary_column (preprocess_data matcher yearsExtract t) with
    | none =>
        simp only [hds] at h
        exact absurd h (by simp)
    | some sc =>
        simp only [hds] at h
        by_cases h0 : rowCount (coerceDropSalary sc (preprocess_data matcher yearsExtract t)) = 0
        · rw [if_pos h0] at h; exact absurd h (by simp)
        · rw [if_neg h0] at h
          by_cases h1 : (trainCategorical (preprocess_data matcher yearsExtract t)
              ++ trainNumerical1 (coerceDropSalary sc (preprocess_data matcher yearsExtract t))).isEmpty = true
          · rw [if_pos h1] at h; exact absurd h (by simp)
          · rw [if_neg h1] at h
            by_cases h2 : ((dedupF (trainCategorical (preprocess_data matcher yearsExtract t)
                ++ trainNumerical1 (coerceDropSalary sc (preprocess_data matcher yearsExtract t)))).filter
                  (fun c => !(hasCol c (coerceDropSalary sc (preprocess_data matcher yearsExtract t))))).isEmpty = true
            · rw [if_pos h2] at h
              cases h
              exact coerceDropSalary_salary_numeric sc (preprocess_data matcher yearsExtract t)
            · rw [if_neg h2] at h; exact absurd h (by simp)
  · intro hds
    refine ⟨"no valid salary column found", ?_⟩
    simp only [trainSalaryModel, hds]
  · intro sc hds h0
    refine ⟨"no valid salary data after cleaning", ?_⟩
    simp only [trainSalaryModel, hds]
    rw [if_pos h0]
  · intro sc hds h0 h1
    refine ⟨"no features found for training", ?_⟩
    simp only [trainSalaryModel, hds]
    rw [if_neg h0, if_pos (by simp [h1])]

/-- Concrete instantiations of the abstracted library functions, used by the
closed witnesses and counterexamples below: a matcher that matches nothing
and an experience extractor that extracts nothing (their values only
influence engineered flag *values*, never which columns exist). -/
def matcher0 : String → String → Bool := fun _ _ => false

def yearsExtract0 : String → Option ℚ := fun _ => none

/-- Witness for C7: the three fatal conditions on concrete tables — no
resolvable salary column, all salary rows dropped as non-numeric, and no
usable feature columns — each yield an error. -/
theorem C7_training_failure_semantics_witness :
    (∃ e, trainSalaryModel matcher0 yearsExtract0 [] = Except.error e) ∧
    (∃ e, trainSalaryModel matcher0 yearsExtract0
        [("salary", [Val.vStr "a negotiar"])] = Except.error e) ∧
    (∃ e, trainSalaryModel matcher0 yearsExtract0
        [("salary", [Val.vNum (mkRat 50000 1)])] = Except.error e) :=
  ⟨(C7_training_failure_semantics matcher0 yearsExtract0 []).2.1 (by decide),
   (C7_training_failure_semantics matcher0 yearsExtract0
      [("salary", [Val.vStr "a negotiar"])]).2.2.1 "salary" (by decide) (by decide),
   (C7_training_failure_semantics matcher0 yearsExtract0
      [("salary", [Val.vNum (mkRat 50000 1)])]).2.2.2 "salary" (by decide) (by decide)
      (by decide)⟩

/-! ## Claim C9 -/

theorem trainSalaryModel_ok_shape (matcher : String → String → Bool)
    (yearsExtract : String → Option ℚ) (t : Table) (a : TrainArtifact)
    (h : trainSalaryModel matcher yearsExtract t = Except.ok a) :
    ∃ sc,
      a.feature_cols = dedupF (trainCategorical (preprocess_data matcher yearsExtract t)
        ++ trainNumerical1 (coerceDropSalary sc (preprocess_data matcher yearsExtract t))) ∧
      a.categorical_features = trainCategorical (preprocess_data matcher yearsExtract t) ∧
      a.numerical_features
        = trainNumerical2 (coerceDropSalary sc (preprocess_data matcher yearsExtract t)) := by
  simp only [trainSalaryModel] at h
  cases hds : determine_salary_column (preprocess_data matcher yearsExtract t) with
  | none =>
      simp only [hds] at h
      exact absurd h (by simp)
  | some sc =>
      simp only [hds] at h
      by_cases h0 : rowCount (coerceDropSalary sc (preprocess_data matcher yearsExtract t)) = 0
      · rw [if_pos h0] at h; exact absurd h (by simp)
      · rw [if_neg h0] at h
        by_cases h1 : (trainCategorical (preprocess_data matcher yearsExtract t)
            ++ trainNumerical1 (coerceDropSalary sc (preprocess_data matcher yearsExtract t))).isEmpty = true
        · rw [if_pos h1] at h; exact absurd h (by simp)
        · rw [if_neg h1] at h
          by_cases h2 : ((dedupF (trainCategorical (preprocess_data matcher yearsExtract t)
              ++ trainNumerical1 (coerceDropSalary sc (preprocess_data matcher yearsExtract t)))).filter
                (fun c => !(hasCol c (coerceDropSalary sc (preprocess_data matcher yearsExtract t))))).isEmpty = true
          · rw [if_pos h2] at h
            cases h
            exact ⟨sc, rfl, rfl, rfl⟩
          · rw [if_neg h2] at h; exact absurd h (by simp)

theorem mem_filter_or_of_mem_filter_orPred (p q : String → Bool) (l : List String)
    (c : String) (h : c ∈ l.filter (fun x => p x || q x)) :
    c ∈ l.filter p ∨ c ∈ l.filter q := by
  rcases List.mem_filter.mp h with ⟨hmem, hpq⟩
  rcases Bool.or_eq_true_iff.mp hpq with hp | hq
  · exact Or.inl (List.mem_filter.mpr ⟨hmem, hp⟩)
  · exact Or.inr (List.mem_filter.mpr ⟨hmem, hq⟩)

/-- Sample training table: a title, a numeric salary and one technology.
The title column makes the feature engineering create `role_*` columns. -/
def t9 : Table :=
  [("titulo", [Val.vStr "Dev"]), ("salario", [Val.vNum (mkRat 30000 1)]),
   ("tecnologias", [Val.vStr "Python"])]

deriving instance DecidableEq for Except

def trained9 : Except String TrainArtifact := trainSalaryModel matcher0 yearsExtract0 t9

def artifactOrDefault (e : Except String TrainArtifact) : TrainArtifact :=
  match e with
  | Except.ok a => a
  | Except.error _ => ⟨[], [], [], [], [], none, none, none, "", []⟩

/-- C9 fails as stated: training on `t9` succeeds and persists a metadata
bundle whose `numerical_features` list — recomputed at src/model_salary.py
lines 294-322 to include every `role_*`/`tech_*`/`loc_*`/boolean column —
contains `role_frontend`, which is not in `feature_cols` (built earlier, at
lines 271-280, from only the title/location/contract and
`skill_*`/`seniority_*` columns). -/
theorem C9_counterexample_numerical_not_subset :
    (∃ a, trained9 = Except.ok a) ∧
    "role_frontend" ∈ (artifactOrDefault trained9).numerical_features ∧
    "role_frontend" ∉ (artifactOrDefault trained9).feature_cols :=
  ⟨⟨artifactOrDefault trained9, by decide⟩, by decide, by decide⟩

/-- C9 (amended): in every persisted ModelArtifact, `categorical_features`
is a subset of `feature_cols`, and every feature column is listed in
`categorical_features` or in `numerical_features`; but the persisted
`numerical_features` need not be a subset of `feature_cols`, since it is
recomputed before persisting to include the `role_*`, `tech_*`, `loc_*`,
boolean and experience columns (see the counterexample above). -/
theorem C9_artifact_feature_lists (matcher : String → String → Bool)
    (yearsExtract : String → Option ℚ) (t : Table) (a : TrainArtifact)
    (h : trainSalaryModel matcher yearsExtract t = Except.ok a) :
    (∀ c ∈ a.categorical_features, c ∈ a.feature_cols) ∧
    (∀ c ∈ a.feature_cols, c ∈ a.categorical_features ∨ c ∈ a.numerical_features) := by
  obtain ⟨sc, hfc, hcat, hnum⟩ := trainSalaryModel_ok_shape matcher yearsExtract t a h
  constructor
  · intro c hc
    rw [hfc, mem_dedupF_iff]
    exact List.mem_append_left _ (hcat ▸ hc)
  · intro c hc
    rw [hfc, mem_dedupF_iff] at hc
    rcases List.mem_append.mp hc with hc | hc
    · exact Or.inl (hcat ▸ hc)
    · refine Or.inr ?_
      rw [hnum, trainNumerical2]
      rcases mem_filter_or_of_mem_filter_orPred _ _ _ c hc with hskill | hsen
      · exact List.mem_append_left _ (List.mem_append_left _ (List.mem_append_left _
          (List.mem_append_left _ (List.mem_append_left _ (List.mem_append_left _ hskill)))))
      · exact List.mem_append_left _ (List.mem_append_left _ (List.mem_append_left _
          (List.mem_append_left _ (List.mem_append_left _ (List.mem_append_right _ hsen)))))

/-- Witness for C9 (amended), on the artifact trained from `t9`. -/
theorem C9_artifact_feature_lists_witness :
    (∀ c ∈ (artifactOrDefault trained9).categorical_features,
        c ∈ (artifactOrDefault trained9).feature_cols) ∧
    (∀ c ∈ (artifactOrDefault trained9).feature_cols,
        c ∈ (artifactOrDefault trained9).categorical_features ∨
          c ∈ (artifactOrDefault trained9).numerical_features) :=
  C9_artifact_feature_lists matcher0 yearsExtract0 t9 (artifactOrDefault trained9)
    (by decide)

/-! ## Claim C3 -/

theorem toList_append (a b : String) : (a ++ b).toList = a.toList ++ b.toList := by
  show (a ++ b).data = a.data ++ b.data
  exact String.data_append a b

theorem normalizeTechApp_startsWith (te : String) :
    pyStartsWith (normalizeTechApp te) "skill_" = true := by
  rw [normalizeTechApp, pyStartsWith]
  have hlist : (String.mk (("skill_" ++ pyLower te).toList.filter isWordChar)).toList
      = "skill_".toList ++ (pyLower te).toList.filter isWordChar := by
    show (("skill_" ++ pyLower te).toList.filter isWordChar) = _
    rw [toList_append, List.filter_append]
    rfl
  rw [hlist]
  rw [show "skill_".toList.length = ("skill_".toList).length from rfl, List.take_left]
  simp

theorem setField_fst (k : String) (v : Val) :
    ∀ r : List (String × Val), (setField k v r).map Prod.fst = r.map Prod.fst
  | [] => rfl
  | p :: ps => by
      by_cases hp : p.1 = k
      · simp [setField, hp, setField_fst k v ps]
      · simp [setField, hp, setField_fst k v ps]

theorem lookupField_setField_self (k : String) (v : Val) :
    ∀ r : List (String × Val), k ∈ r.map Prod.fst →
      lookupField k (setField k v r) = some v
  | [], hk => by simp at hk
  | p :: ps, hk => by
      by_cases hp : p.1 = k
      · simp [setField, lookupField, hp]
      · simp only [setField, beq_iff_eq, hp, if_false, lookupField]
        exact lookupField_setField_self k v ps
          (by simpa [Ne.symm hp] using hk)

theorem lookupField_setField_ne (k k2 : String) (v : Val) (h : k ≠ k2) :
    ∀ r : List (String × Val), lookupField k (setField k2 v r) = lookupField k r
  | [] => rfl
  | p :: ps => by
      by_cases hp : p.1 = k2
      · have hpk : p.1 ≠ k := fun hc => h (hc.symm.trans hp)
        simp [setField, lookupField, hp, hpk, Ne.symm h, lookupField_setField_ne k k2 v h ps]
      · by_cases hpk : p.1 = k
        · simp [setField, lookupField, hp, hpk, h]
        · simp [setField, lookupField, hp, hpk, lookupField_setField_ne k k2 v h ps]

theorem defaultCell_fst (jobsDf : Table) (c : String) (pair : String × Val)
    (h : defaultCell jobsDf c = some pair) : pair.1 = c := by
  rw [defaultCell] at h
  by_cases hz : zeroDefaultCol c = true
  · rw [if_pos hz] at h
    cases h
    rfl
  · rw [if_neg hz] at h
    cases hm : modeOrUnknown jobsDf c with
    | none => rw [hm] at h; exact absurd h (by simp)
    | some m => rw [hm] at h; cases h; rfl

theorem defaultsFor_fst (jobsDf : Table) :
    ∀ (fc : List String) (r : List (String × Val)),
      defaultsFor jobsDf fc = some r → r.map Prod.fst = fc
  | [], r, h => by
      simp only [defaultsFor, List.mapM_nil] at h
      cases h
      rfl
  | c :: fc, r, h => by
      simp only [defaultsFor, List.mapM_cons] at h
      cases hc : defaultCell jobsDf c with
      | none => rw [hc] at h; exact absurd h (by simp)
      | some pair =>
          rw [hc] at h
          cases hrest : List.mapM (defaultCell jobsDf) fc with
          | none => rw [hrest] at h; exact absurd h (by simp)
          | some rest =>
              rw [hrest] at h
              simp only [Option.bind_some, Option.map_some', Option.pure_def,
                Option.bind_eq_bind] at h
              cases h
              simp only [List.map_cons, defaultCell_fst jobsDf c pair hc]
              rw [defaultsFor_fst jobsDf fc rest (by rw [defaultsFor, hrest])]

theorem defaultsFor_lookup (jobsDf : Table) :
    ∀ (fc : List String) (r : List (String × Val)), fc.Nodup →
      defaultsFor jobsDf fc = some r → ∀ c ∈ fc,
        lookupField c r = (if zeroDefaultCol c = true then some (Val.vNum 0)
          else modeOrUnknown jobsDf c)
  | [], r, _, h, c, hc => by simp at hc
  | c0 :: fc, r, hnd, h, c, hc => by
      simp only [defaultsFor, List.mapM_cons] at h
      cases hc0 : defaultCell jobsDf c0 with
      | none => rw [hc0] at h; exact absurd h (by simp)
      | some pair =>
          rw [hc0] at h
          cases hrest : List.mapM (defaultCell jobsDf) fc with
          | none => rw [hrest] at h; exact absurd h (by simp)
          | some rest =>
              rw [hrest] at h
              simp only [Option.bind_some, Option.map_some', Option.pure_def,
                Option.bind_eq_bind] at h
              cases h
              rcases List.mem_cons.mp hc with rfl | hcm
              · rw [lookupField, defaultCell_fst jobsDf c pair hc0, if_pos (by simp)]
                rw [defaultCell] at hc0
                by_cases hz : zeroDefaultCol c = true
                · rw [if_pos hz] at hc0 ⊢
                  cases hc0
                  rfl
                · rw [if_neg hz] at hc0 ⊢
                  cases hm : modeOrUnknown jobsDf c with
                  | none => rw [hm] at hc0; exact absurd hc0 (by simp)
                  | some m => rw [hm] at hc0; cases hc0; rfl
              · have hne : pair.1 ≠ c := by
                  rw [defaultCell_fst jobsDf c0 pair hc0]
                  exact fun hcc => (List.nodup_cons.mp hnd).1 (hcc ▸ hcm)
                rw [lookupField, if_neg (by simpa using hne)]
                exact defaultsFor_lookup jobsDf fc rest (List.nodup_cons.mp hnd).2
                  (by rw [defaultsFor, hrest]) c hcm

theorem applyTechSelections_cons (fc : List String) (te : String)
    (rest : List String) (r : List (String × Val)) :
    applyTechSelections fc (te :: rest) r
      = applyTechSelections fc rest
          (if fc.contains (normalizeTechApp te) then
            setField (normalizeTechApp te) (Val.vNum 1) r
          else r) := rfl

theorem applyTechSelections_fst (fc techs : List String) :
    ∀ r : List (String × Val),
      (applyTechSelections fc techs r).map Prod.fst = r.map Prod.fst := by
  induction techs with
  | nil => intro r; rfl
  | cons te rest ih =>
      intro r
      rw [applyTechSelections_cons]
      by_cases hmem : fc.contains (normalizeTechApp te) = true
      · rw [if_pos hmem, ih, setField_fst]
      · rw [if_neg hmem, ih]

theorem applyTechSelections_lookup_nonskill (fc techs : List String) (c : String)
    (hc : pyStartsWith c "skill_" = false) :
    ∀ r : List (String × Val),
      lookupField c (applyTechSelections fc techs r) = lookupField c r := by
  induction techs with
  | nil => intro r; rfl
  | cons te rest ih =>
      intro r
      have hne : c ≠ normalizeTechApp te := fun hcc => by
        rw [hcc, normalizeTechApp_startsWith te] at hc
        exact Bool.noConfusion hc
      rw [applyTechSelections_cons]
      by_cases hmem : fc.contains (normalizeTechApp te) = true
      · rw [if_pos hmem, ih, lookupField_setField_ne c _ _ hne]
      · rw [if_neg hmem, ih]

theorem applyTechSelections_lookup_skill (fc techs : List String) (c : String)
    (hfc : c ∈ fc) :
    ∀ r : List (String × Val), c ∈ r.map Prod.fst →
      lookupField c (applyTechSelections fc techs r)
        = if techs.any (fun te => normalizeTechApp te == c) then some (Val.vNum 1)
          else lookupField c r := by
  induction techs with
  | nil => intro r _; rfl
  | cons te rest ih =>
      intro r hr
      rw [applyTechSelections_cons]
      by_cases hte : normalizeTechApp te = c
      · have hmem : fc.contains (normalizeTechApp te) = true := by
          rw [hte]; exact List.elem_iff.mpr hfc
        rw [if_pos hmem, hte]
        rw [ih _ (by rw [setField_fst]; exact hr),
          lookupField_setField_self c _ r hr]
        have hhead : ((te :: rest).any fun x => normalizeTechApp x == c) = true := by
          simp [List.any_cons, hte]
        rw [if_pos hhead]
        by_cases hrest : (rest.any fun x => normalizeTechApp x == c) = true
        · rw [if_pos hrest]
        · rw [if_neg hrest]
      · have hhead : (normalizeTechApp te == c) = false := by simpa using hte
        have hany : ((te :: rest).any fun x => normalizeTechApp x == c)
            = (rest.any fun x => normalizeTechApp x == c) := by
          rw [List.any_cons, hhead, Bool.false_or]
        by_cases hmem : fc.contains (normalizeTechApp te) = true
        · rw [if_pos hmem, ih _ (by rw [setField_fst]; exact hr),
            lookupField_setField_ne c _ _ (fun hcc => hte hcc.symm), hany]
        · rw [if_neg hmem, ih _ hr, hany]

theorem reorderRow_fst (fc : List String) (row : List (String × Val)) :
    (reorderRow fc row).map Prod.fst = fc := by
  induction fc with
  | nil => rfl
  | cons c cs ih =>
      simp only [reorderRow, List.map_cons] at ih ⊢
      rw [ih]

theorem lookupField_reorderRow (row : List (String × Val)) (c : String) :
    ∀ fc : List String, c ∈ fc →
      lookupField c (reorderRow fc row) = some ((lookupField c row).getD Val.vNull)
  | [], hc => by simp at hc
  | f0 :: fc, hc => by
      by_cases hf : f0 = c
      · subst hf
        simp [reorderRow, lookupField]
      · rcases List.mem_cons.mp hc with rfl | hcm
        · exact absurd rfl hf
        · simp only [reorderRow, List.map_cons, lookupField, beq_iff_eq, hf, if_false]
          exact lookupField_reorderRow row c fc hcm

theorem lookupField_isSome_of_mem (c : String) :
    ∀ r : List (String × Val), c ∈ r.map Prod.fst → ∃ v, lookupField c r = some v
  | [], h => by simp at h
  | p :: ps, h => by
      by_cases hp : p.1 = c
      · exact ⟨p.2, by simp [lookupField, hp]⟩
      · simp only [List.map_cons, List.mem_cons] at h
        rcases h with h1 | h2
        · exact absurd h1.symm hp
        · obtain ⟨v, hv⟩ := lookupField_isSome_of_mem c ps h2
          exact ⟨v, by simp [lookupField, hp, hv]⟩

theorem applyOverride_fst (target : Option String) (input : Option Val)
    (row : List (String × Val)) :
    (applyOverride target input row).map Prod.fst = row.map Prod.fst := by
  cases target with
  | none => cases input <;> rfl
  | some c =>
      cases input with
      | none => rfl
      | some v => exact setField_fst c v row

theorem lookupField_applyOverride_skip (target : Option String) (input : Option Val)
    (row : List (String × Val)) (c : String)
    (h : input = none ∨ target ≠ some c) :
    lookupField c (applyOverride target input row) = lookupField c row := by
  cases target with
  | none => cases input <;> rfl
  | some c2 =>
      cases input with
      | none => rfl
      | some v =>
          rcases h with h | h
          · exact absurd h (by simp)
          · exact lookupField_setField_ne c c2 v (fun he => h (by rw [he])) row

theorem lookupField_applyOverride_self (c : String) (v : Val)
    (row : List (String × Val)) (hc : c ∈ row.map Prod.fst) :
    lookupField c (applyOverride (some c) (some v) row) = some v :=
  lookupField_setField_self c v row hc

theorem locColName_eq (fc : List String) (c : String) (h : locColName fc = some c) :
    c ∈ fc ∧ (c = "ubicacion" ∨ c = "location") := by
  refine ⟨List.mem_of_find?_eq_some h, ?_⟩
  have hp := List.find?_some h
  simpa using hp

theorem contractColName_eq (fc : List String) (c : String)
    (h : contractColName fc = some c) :
    c ∈ fc ∧ (c = "tipo_contrato" ∨ c = "jornada" ∨ c = "contract_type") := by
  refine ⟨List.mem_of_find?_eq_some h, ?_⟩
  have hp := List.find?_some h
  simp only [Bool.or_eq_true, beq_iff_eq] at hp
  tauto

/-- C3 counterexample: training on `t9` yields an artifact whose feature list
contains `seniority_mid`, a numerical feature of the artifact; yet the
dashboard's input builder defaults it to the mode fallback `'Desconocido'`,
not 0, because app.py line 453 zero-defaults only `skill_*`,
`experience_years`, `seniority_senior` and `seniority_junior` — refuting the
claim that every numeric/skill column defaults to 0. -/
theorem C3_counterexample_seniority_mid_not_zeroed :
    buildInputRow (artifactOrDefault trained9).feature_cols
        [("titulo", [Val.vStr "Dev", Val.vStr "Dev"])] none none []
      = some [("titulo", Val.vStr "Dev"), ("seniority_senior", Val.vNum 0),
          ("seniority_mid", Val.vStr "Desconocido"), ("seniority_junior", Val.vNum 0),
          ("skill_python", Val.vNum 0)]
    ∧ "seniority_mid" ∈ (artifactOrDefault trained9).numerical_features := by
  decide

/-- C3 (amended): for every feature-column list without duplicates, whenever
the input builder succeeds, the produced row has exactly the feature columns
in their exact order; every `skill_*` column is 1 when a selected technology
normalizes to it and 0 otherwise; the `experience_years`,
`seniority_senior` and `seniority_junior` columns are always 0; the resolved
location/contract column holds the user's input when one was given; and
every other column not zero-defaulted and not user-overridden holds the
training corpus's mode (or `'Desconocido'` when the column is absent or
empty).  The original claim fails only in which columns count as
zero-defaulted: other numerical features (e.g. `seniority_mid`) fall through
to the mode/`'Desconocido'` default. -/
theorem C3_input_builder_characterization
    (fc : List String) (jobsDf : Table) (locIn contractIn : Option Val)
    (techs : List String) (row : List (String × Val))
    (hnd : fc.Nodup)
    (h : buildInputRow fc jobsDf locIn contractIn techs = some row) :
    row.map Prod.fst = fc ∧
    (∀ c ∈ fc, pyStartsWith c "skill_" = true →
      lookupField c row = some (Val.vNum
        (if techs.any (fun te => normalizeTechApp te == c) then 1 else 0))) ∧
    (∀ c ∈ fc, zeroDefaultCol c = true → pyStartsWith c "skill_" = false →
      lookupField c row = some (Val.vNum 0)) ∧
    (∀ c v, locColName fc = some c → locIn = some v →
      lookupField c row = some v) ∧
    (∀ c v, contractColName fc = some c → contractIn = some v →
      lookupField c row = some v) ∧
    (∀ c ∈ fc, zeroDefaultCol c = false →
      (locIn = none ∨ locColName fc ≠ some c) →
      (contractIn = none ∨ contractColName fc ≠ some c) →
      lookupField c row = modeOrUnknown jobsDf c) := by
  rw [buildInputRow] at h
  cases hdef : defaultsFor jobsDf fc with
  | none => rw [hdef] at h; exact absurd h (by simp)
  | some row0 =>
      rw [hdef] at h
      simp only [Option.map_some', Option.some.injEq] at h
      subst h
      have hkeys0 : row0.map Prod.fst = fc := defaultsFor_fst jobsDf fc row0 hdef
      have hkeys1 : (applyOverride (locColName fc) locIn row0).map Prod.fst = fc := by
        rw [applyOverride_fst, hkeys0]
      have hkeys2 : (applyOverride (contractColName fc) contractIn
          (applyOverride (locColName fc) locIn row0)).map Prod.fst = fc := by
        rw [applyOverride_fst, hkeys1]
      refine ⟨reorderRow_fst fc _, ?_, ?_, ?_, ?_, ?_⟩
      · intro c hc hskill
        rw [lookupField_reorderRow _ c fc hc,
          applyTechSelections_lookup_skill fc techs c hc _ (by rw [hkeys2]; exact hc)]
        have hlocne : locColName fc ≠ some c := fun he => by
          obtain ⟨_, hn⟩ := locColName_eq fc c he
          rcases hn with rfl | rfl
          · exact absurd hskill (by decide)
          · exact absurd hskill (by decide)
        have hconne : contractColName fc ≠ some c := fun he => by
          obtain ⟨_, hn⟩ := contractColName_eq fc c he
          rcases hn with rfl | rfl | rfl
          · exact absurd hskill (by decide)
          · exact absurd hskill (by decide)
          · exact absurd hskill (by decide)
        rw [lookupField_applyOverride_skip _ _ _ c (Or.inr hconne),
          lookupField_applyOverride_skip _ _ _ c (Or.inr hlocne),
          defaultsFor_lookup jobsDf fc row0 hnd hdef c hc]
        have hz : zeroDefaultCol c = true := by
          rw [zeroDefaultCol, hskill]
          simp
        rw [if_pos hz]
        by_cases ha : (techs.any fun te => normalizeTechApp te == c) = true
        · rw [if_pos ha, if_pos ha]
          rfl
        · rw [if_neg ha, if_neg ha]
          rfl
      · intro c hc hz hskill
        have hc3 : c = "experience_years" ∨ c = "seniority_senior"
            ∨ c = "seniority_junior" := by
          rw [zeroDefaultCol, hskill] at hz
          simp only [Bool.false_or, Bool.or_eq_true, beq_iff_eq] at hz
          tauto
        rw [lookupField_reorderRow _ c fc hc,
          applyTechSelections_lookup_nonskill fc techs c hskill]
        have hlocne : locColName fc ≠ some c := fun he => by
          obtain ⟨_, hn⟩ := locColName_eq fc c he
          rcases hc3 with rfl | rfl | rfl <;> rcases hn with h1 | h1 <;>
            exact absurd h1 (by decide)
        have hconne : contractColName fc ≠ some c := fun he => by
          obtain ⟨_, hn⟩ := contractColName_eq fc c he
          rcases hc3 with rfl | rfl | rfl <;> rcases hn with h1 | h1 | h1 <;>
            exact absurd h1 (by decide)
        rw [lookupField_applyOverride_skip _ _ _ c (Or.inr hconne),
          lookupField_applyOverride_skip _ _ _ c (Or.inr hlocne),
          defaultsFor_lookup jobsDf fc row0 hnd hdef c hc, if_pos hz]
        rfl
      · intro c v hl hv
        obtain ⟨hcm, hn⟩ := locColName_eq fc c hl
        have hskill : pyStartsWith c "skill_" = false := by
          rcases hn with rfl | rfl <;> decide
        have hconne : contractColName fc ≠ some c := fun he => by
          obtain ⟨_, hn2⟩ := contractColName_eq fc c he
          rcases hn with rfl | rfl <;> rcases hn2 with h1 | h1 | h1 <;>
            exact absurd h1 (by decide)
        rw [lookupField_reorderRow _ c fc hcm,
          applyTechSelections_lookup_nonskill fc techs c hskill,
          lookupField_applyOverride_skip _ _ _ c (Or.inr hconne),
          hl, hv,
          lookupField_applyOverride_self c v row0 (by rw [hkeys0]; exact hcm)]
        rfl
      · intro c v hl hv
        obtain ⟨hcm, hn⟩ := contractColName_eq fc c hl
        have hskill : pyStartsWith c "skill_" = false := by
          rcases hn with rfl | rfl | rfl <;> decide
        rw [lookupField_reorderRow _ c fc hcm,
          applyTechSelections_lookup_nonskill fc techs c hskill,
          hl, hv,
          lookupField_applyOverride_self c v _ (by rw [hkeys1]; exact hcm)]
        rfl
      · intro c hc hz hlocskip hconskip
        have hskill : pyStartsWith c "skill_" = false := by
          cases h2 : pyStartsWith c "skill_" with
          | false => rfl
          | true =>
              rw [zeroDefaultCol, h2] at hz
              simp at hz
        have hmem0 : c ∈ row0.map Prod.fst := by rw [hkeys0]; exact hc
        obtain ⟨m, hm⟩ := lookupField_isSome_of_mem c row0 hmem0
        have hmode : modeOrUnknown jobsDf c = some m := by
          rw [← hm, defaultsFor_lookup jobsDf fc row0 hnd hdef c hc,
            if_neg (by simp [hz])]
        rw [lookupField_reorderRow _ c fc hc,
          applyTechSelections_lookup_nonskill fc techs c hskill,
          lookupField_applyOverride_skip _ _ _ c hconskip,
          lookupField_applyOverride_skip _ _ _ c hlocskip,
          hm, hmode]
        rfl

/-- Witness for the amended C3: a concrete artifact-style feature list, a
two-column jobs table, a user-picked location and one selected technology,
with the characterization instantiated there. -/
theorem C3_input_builder_characterization_witness :
    (["ubicacion", "skill_python", "seniority_senior", "puesto"] : List String).Nodup ∧
    buildInputRow ["ubicacion", "skill_python", "seniority_senior", "puesto"]
        [("ubicacion", [Val.vStr "Madrid", Val.vStr "Madrid", Val.vStr "Bilbao"]),
         ("puesto", [Val.vStr "Dev"])]
        (some (Val.vStr "Remoto")) none ["Python!"]
      = some [("ubicacion", Val.vStr "Remoto"), ("skill_python", Val.vNum 1),
          ("seniority_senior", Val.vNum 0), ("puesto", Val.vStr "Dev")] ∧
    ([("ubicacion", Val.vStr "Remoto"), ("skill_python", Val.vNum 1),
        ("seniority_senior", Val.vNum 0), ("puesto", Val.vStr "Dev")].map Prod.fst
      = ["ubicacion", "skill_python", "seniority_senior", "puesto"] ∧
    (∀ c ∈ ["ubicacion", "skill_python", "seniority_senior", "puesto"],
      pyStartsWith c "skill_" = true →
      lookupField c [("ubicacion", Val.vStr "Remoto"), ("skill_python", Val.vNum 1),
          ("seniority_senior", Val.vNum 0), ("puesto", Val.vStr "Dev")]
        = some (Val.vNum
          (if ["Python!"].any (fun te => normalizeTechApp te == c) then 1 else 0))) ∧
    (∀ c ∈ ["ubicacion", "skill_python", "seniority_senior", "puesto"],
      zeroDefaultCol c = true → pyStartsWith c "skill_" = false →
      lookupField c [("ubicacion", Val.vStr "Remoto"), ("skill_python", Val.vNum 1),
          ("seniority_senior", Val.vNum 0), ("puesto", Val.vStr "Dev")]
        = some (Val.vNum 0)) ∧
    (∀ c v, locColName ["ubicacion", "skill_python", "seniority_senior", "puesto"]
        = some c → (some (Val.vStr "Remoto") : Option Val) = some v →
      lookupField c [("ubicacion", Val.vStr "Remoto"), ("skill_python", Val.vNum 1),
          ("seniority_senior", Val.vNum 0), ("puesto", Val.vStr "Dev")] = some v) ∧
    (∀ c v, contractColName ["ubicacion", "skill_python", "seniority_senior", "puesto"]
        = some c → (none : Option Val) = some v →
      lookupField c [("ubicacion", Val.vStr "Remoto"), ("skill_python", Val.vNum 1),
          ("seniority_senior", Val.vNum 0), ("puesto", Val.vStr "Dev")] = some v) ∧
    (∀ c ∈ ["ubicacion", "skill_python", "seniority_senior", "puesto"],
      zeroDefaultCol c = false →
      ((some (Val.vStr "Remoto") : Option Val) = none ∨
        locColName ["ubicacion", "skill_python", "seniority_senior", "puesto"] ≠ some c) →
      ((none : Option Val) = none ∨
        contractColName ["ubicacion", "skill_python", "seniority_senior", "puesto"]
          ≠ some c) →
      lookupField c [("ubicacion", Val.vStr "Remoto"), ("skill_python", Val.vNum 1),
          ("seniority_senior", Val.vNum 0), ("puesto", Val.vStr "Dev")]
        = modeOrUnknown
            [("ubicacion", [Val.vStr "Madrid", Val.vStr "Madrid", Val.vStr "Bilbao"]),
             ("puesto", [Val.vStr "Dev"])] c)) :=
  ⟨by decide, by decide,
    C3_input_builder_characterization _ _ _ _ _ _ (by decide) (by decide)⟩

/-! ## Lemmas for the idempotence analysis of `transform_job_data` -/

theorem colNames_renameColumns (t : Table) :
    colNames (renameColumns t) = (colNames t).map renameName := by
  simp [colNames, renameColumns, List.map_map, Function.comp]

theorem colNames_map_pair (l : List String) (f : String → Col) :
    colNames (l.map (fun n => (n, f n))) = l := by
  induction l with
  | nil => rfl
  | cons x xs ih =>
      simp only [colNames, List.map_cons] at ih ⊢
      rw [ih]

theorem colNames_mergeDupCols (t : Table) :
    colNames (mergeDupCols t) = sortStr (dedupF (colNames t)) := by
  rw [mergeDupCols, colNames_map_pair]

theorem mem_colNames_mergeDupCols (n : String) (t : Table) :
    n ∈ colNames (mergeDupCols t) ↔ n ∈ colNames t := by
  rw [colNames_mergeDupCols, mem_sortStr, mem_dedupF_iff]

theorem hasCol_eq_false_iff (n : String) (t : Table) :
    hasCol n t = false ↔ n ∉ colNames t := by
  rw [← Bool.not_eq_true, hasCol_iff_mem]

theorem dateStep_skip (pdate : String → Option String) (t : Table)
    (h1 : hasCol "created_at" t = false)
    (h2 : hasCol "fecha_publicacion" t = false) :
    dateStep pdate t = t := by
  rw [dateStep, if_neg (by simp [h1]), if_neg (by simp [h2])]

theorem findSalaryCol_eq_none (t : Table)
    (h1 : hasCol "salario" t = false) (h2 : hasCol "salary" t = false)
    (h3 : hasCol "salario_promedio" t = false) :
    findSalaryCol t = none := by
  rw [findSalaryCol]
  simp [List.find?, h1, h2, h3]

theorem salaryStep_skip (t : Table) (h : findSalaryCol t = none) :
    salaryStep t = t := by
  simp only [salaryStep, h]

theorem salaryMinMaxStep_skip (rng : Nat → Nat) (t : Table)
    (h : ¬(hasCol "salario_min" t = true ∧ hasCol "salario_max" t = true)) :
    salaryMinMaxStep rng t = t := by
  rw [salaryMinMaxStep, if_neg h]

theorem techStep_skip (t : Table) (h : lookupCol "technology" t = none) :
    techStep t = t := by
  simp only [techStep, h]

theorem renameName_cases (n : String) :
    renameName n = n ∨ renameName n ∈
      (["puesto", "empresa", "ubicacion", "descripcion", "url_oferta"] : List String) := by
  rw [renameName]
  cases hf : columnMapping.find? (fun p => p.1 == n) with
  | none => exact Or.inl rfl
  | some p =>
      right
      have hp := List.mem_of_find?_eq_some hf
      simp only [hf]
      simp only [columnMapping, List.mem_cons, List.not_mem_nil, or_false] at hp
      rcases hp with rfl | rfl | rfl | rfl | rfl | rfl | rfl <;> decide

theorem renameName_idem (n : String) :
    renameName (renameName n) = renameName n := by
  rcases renameName_cases n with h | h
  · rw [h]
    exact h
  · simp only [List.mem_cons, List.not_mem_nil, or_false] at h
    rcases h with h | h | h | h | h <;> rw [h] <;> decide

theorem renameColumns_eq_self :
    ∀ t : Table, (∀ n ∈ colNames t, renameName n = n) → renameColumns t = t
  | [], _ => rfl
  | p :: ps, h => by
      have h1 : renameName p.1 = p.1 := h p.1 (by simp [colNames])
      have h2 := renameColumns_eq_self ps
        (fun n hn => h n
          (by simp only [colNames, List.map_cons, List.mem_cons]; exact Or.inr hn))
      simp only [renameColumns, List.map_cons] at h2 ⊢
      rw [h1, h2]

theorem colsNamed_cons (n : String) (p : String × Col) (ps : Table) :
    colsNamed n (p :: ps)
      = if p.1 == n then p.2 :: colsNamed n ps else colsNamed n ps := by
  simp only [colsNamed, List.filter_cons]
  by_cases h : (p.1 == n) = true
  · rw [if_pos h, if_pos h, List.map_cons]
  · rw [if_neg h, if_neg h]

theorem colsNamed_eq_nil (n : String) :
    ∀ t : Table, n ∉ colNames t → colsNamed n t = []
  | [], _ => rfl
  | p :: ps, h => by
      simp only [colNames, List.map_cons, List.mem_cons, not_or] at h
      obtain ⟨hh, ht⟩ := h
      rw [colsNamed_cons,
        if_neg (by simp only [beq_iff_eq]; exact fun he => hh he.symm)]
      exact colsNamed_eq_nil n ps (by simpa [colNames] using ht)

theorem map_pair_colsNamed :
    ∀ t : Table, (colNames t).Nodup →
      (colNames t).map (fun n => (n, combineAll (colsNamed n t))) = t
  | [], _ => rfl
  | p :: ps, hnd => by
      have hnd' : (p.1 :: colNames ps).Nodup := hnd
      have hnotin : p.1 ∉ colNames ps := (List.nodup_cons.mp hnd').1
      have hndps : (colNames ps).Nodup := (List.nodup_cons.mp hnd').2
      have htail : ∀ n ∈ colNames ps,
          (n, combineAll (colsNamed n (p :: ps))) = (n, combineAll (colsNamed n ps)) := by
        intro n hn
        rw [colsNamed_cons,
          if_neg (by simp only [beq_iff_eq]; exact fun he => hnotin (he.symm ▸ hn))]
      calc (colNames (p :: ps)).map (fun n => (n, combineAll (colsNamed n (p :: ps))))
          = (p.1, combineAll (colsNamed p.1 (p :: ps)))
              :: (colNames ps).map (fun n => (n, combineAll (colsNamed n (p :: ps)))) := rfl
        _ = p :: ps := by
            rw [colsNamed_cons, if_pos (by simp), colsNamed_eq_nil p.1 ps hnotin,
              List.map_congr_left htail, map_pair_colsNamed ps hndps]
            rfl

theorem nodup_sortStr (l : List String) (h : l.Nodup) : (sortStr l).Nodup := by
  rw [sortStr]
  exact (List.perm_insertionSort _ l).nodup_iff.mpr h

theorem sorted_sortStr (l : List String) :
    List.Sorted (fun a b => strLe a b = true) (sortStr l) := by
  rw [sortStr]
  exact List.sorted_insertionSort _ l

theorem mergeDupCols_eq_self (t : Table) (hnd : (colNames t).Nodup)
    (hs : List.Sorted (fun a b => strLe a b = true) (colNames t)) :
    mergeDupCols t = t := by
  rw [mergeDupCols, dedupF_eq_self _ hnd, sortStr, hs.insertionSort_eq]
  exact map_pair_colsNamed t hnd

/-- A trivial datetime parser (rejects everything) for concrete runs. -/
def pdNone : String → Option String := fun _ => none

/-- A constant random stream for concrete runs. -/
def rngConst : Nat → Nat := fun _ => 0

/-- A raw table with a populated min/max salary pair. -/
def t8 : Table :=
  [("ubicacion", [Val.vStr "Madrid"]),
   ("salario_min", [Val.vNum 1000]),
   ("salario_max", [Val.vNum 2000])]

/-- C8 counterexample: on `t8` the first transform derives
`salario_promedio = 1500` from the min/max pair; the second transform then
finds `salario_promedio` as a salary column, renames it to `salary`, and
re-derives `salario_promedio`, so the output gains a fifth column and the
transform is not idempotent. -/
theorem C8_counterexample_second_pass_adds_salary :
    transform_job_data pdNone rngConst (transform_job_data pdNone rngConst t8)
      ≠ transform_job_data pdNone rngConst t8 := by
  decide

/-- C8 (amended): the transform is not idempotent in general (see the
counterexample: a derived `salario_promedio` is re-detected as a salary
column on the second pass).  It is idempotent on tables that stay clear of
the stateful steps: when no renamed column is a date, salary or technology
column, and the min/max salary pair is not complete, both passes reduce to
rename + duplicate-merge, rename is identity on its own range, and the
merge fixes any table whose column names are already sorted and duplicate
free — so the second pass returns the first pass's output unchanged. -/
theorem C8_transform_idempotent_on_untouched_tables
    (pdate : String → Option String) (rng : Nat → Nat) (t : Table)
    (hex : ∀ n ∈ colNames t,
      renameName n ∉ (["created_at", "fecha_publicacion", "salario", "salary",
        "salario_promedio", "technology"] : List String))
    (hminmax : ¬("salario_min" ∈ (colNames t).map renameName ∧
        "salario_max" ∈ (colNames t).map renameName)) :
    transform_job_data pdate rng (transform_job_data pdate rng t)
      = transform_job_data pdate rng t := by
  have hmem : ∀ n : String,
      n ∈ colNames (mergeDupCols (renameColumns t)) ↔
        n ∈ (colNames t).map renameName := fun n => by
    rw [mem_colNames_mergeDupCols, colNames_renameColumns]
  have hnot : ∀ b ∈ (["created_at", "fecha_publicacion", "salario", "salary",
      "salario_promedio", "technology"] : List String),
      b ∉ colNames (mergeDupCols (renameColumns t)) := by
    intro b hb hmemb
    rw [hmem b, List.mem_map] at hmemb
    obtain ⟨m, hm, hrm⟩ := hmemb
    exact hex m hm (hrm ▸ hb)
  have hhc : ∀ b ∈ (["created_at", "fecha_publicacion", "salario", "salary",
      "salario_promedio", "technology"] : List String),
      hasCol b (mergeDupCols (renameColumns t)) = false :=
    fun b hb => (hasCol_eq_false_iff b _).mpr (hnot b hb)
  have hdate1 : dateStep pdate (mergeDupCols (renameColumns t))
      = mergeDupCols (renameColumns t) :=
    dateStep_skip pdate _ (hhc _ (by decide)) (hhc _ (by decide))
  have hsal1 : salaryStep (mergeDupCols (renameColumns t))
      = mergeDupCols (renameColumns t) :=
    salaryStep_skip _ (findSalaryCol_eq_none _
      (hhc _ (by decide)) (hhc _ (by decide)) (hhc _ (by decide)))
  have hmm1 : salaryMinMaxStep rng (mergeDupCols (renameColumns t))
      = mergeDupCols (renameColumns t) := by
    refine salaryMinMaxStep_skip rng _ (fun hboth => hminmax ⟨?_, ?_⟩)
    · exact (hmem _).mp ((hasCol_iff_mem _ _).mp hboth.1)
    · exact (hmem _).mp ((hasCol_iff_mem _ _).mp hboth.2)
  have htech1 : techStep (mergeDupCols (renameColumns t))
      = mergeDupCols (renameColumns t) :=
    techStep_skip _ ((lookupCol_eq_none _ _).mpr (hnot "technology" (by decide)))
  have hT : transform_job_data pdate rng t = mergeDupCols (renameColumns t) := by
    show techStep (salaryMinMaxStep rng (salaryStep (dateStep pdate
      (mergeDupCols (renameColumns t))))) = mergeDupCols (renameColumns t)
    rw [hdate1, hsal1, hmm1, htech1]
  have hrn : renameColumns (mergeDupCols (renameColumns t))
      = mergeDupCols (renameColumns t) := by
    refine renameColumns_eq_self _ (fun n hn => ?_)
    have := (hmem n).mp hn
    rw [List.mem_map] at this
    obtain ⟨m, _, hrm⟩ := this
    rw [← hrm]
    exact renameName_idem m
  have hnd_u : (colNames (mergeDupCols (renameColumns t))).Nodup := by
    rw [colNames_mergeDupCols]
    exact nodup_sortStr _ (nodup_dedupF _)
  have hsort_u : List.Sorted (fun a b => strLe a b = true)
      (colNames (mergeDupCols (renameColumns t))) := by
    rw [colNames_mergeDupCols]
    exact sorted_sortStr _
  have hmerge : mergeDupCols (mergeDupCols (renameColumns t))
      = mergeDupCols (renameColumns t) :=
    mergeDupCols_eq_self _ hnd_u hsort_u
  rw [hT]
  show techStep (salaryMinMaxStep rng (salaryStep (dateStep pdate
    (mergeDupCols (renameColumns (mergeDupCols (renameColumns t)))))))
      = mergeDupCols (renameColumns t)
  rw [hrn, hmerge, hdate1, hsal1, hmm1, htech1]

/-- Witness for the amended C8: a table holding only synonym columns that
rename to `puesto` and `empresa`, where the transform's output is a fixed
point of the transform. -/
theorem C8_transform_idempotent_on_untouched_tables_witness :
    (∀ n ∈ colNames [("title", [Val.vStr "Dev"]), ("company", [Val.vStr "ACME"])],
      renameName n ∉ (["created_at", "fecha_publicacion", "salario", "salary",
        "salario_promedio", "technology"] : List String)) ∧
    ¬("salario_min" ∈ (colNames
        [("title", [Val.vStr "Dev"]), ("company", [Val.vStr "ACME"])]).map renameName ∧
      "salario_max" ∈ (colNames
        [("title", [Val.vStr "Dev"]), ("company", [Val.vStr "ACME"])]).map renameName) ∧
    transform_job_data pdNone rngConst (transform_job_data pdNone rngConst
        [("title", [Val.vStr "Dev"]), ("company", [Val.vStr "ACME"])])
      = transform_job_data pdNone rngConst
          [("title", [Val.vStr "Dev"]), ("company", [Val.vStr "ACME"])] :=
  ⟨by decide, by decide,
    C8_transform_idempotent_on_untouched_tables pdNone rngConst _
      (by decide) (by decide)⟩

end MercadoTech
